import Mathlib

/-!
Verification development for the Freeview-EPG schedule aggregator
(`src/main.py`).  The script loads a channel registry, then for each
channel fetches raw EPG listings from one of four upstream sources
(Sky, BT, BBC radio schedule pages, Freeview), normalizes them into
programme dictionaries appended to one global `programme_data` list,
and finally serializes that list with `build_xmltv`.

The embedding below models the data flow of the script:

* payloads are modeled as already-parsed structures (the script parses
  JSON/HTML with `json.loads` / BeautifulSoup; a 200 response whose body
  is structurally well formed is assumed, except where a claim is about
  parse failures, which are modeled explicitly);
* Python exceptions that escape the per-item code are modeled with an
  explicit `PyErr` error monad (`Except`), since the script has no
  try/except around its main loop: an uncaught exception aborts the run;
* network fetches and the wall-clock-dependent `get_days` windows are
  supplied by an `Env` record of functions, since no claim is about the
  window generator's numeric values;
* `datetime` values are modeled numerically: naive datetimes as records
  of calendar fields (`NaiveDT`) with an epoch conversion, BBC air times
  as minutes since midnight (`Fin 1440`, the range `strptime "%H:%M"`
  can produce), and timestamps as exact rationals (Python floats on the
  values reached by the claims are exact).
-/

/-- Python exception kinds that can escape the per-item code of `main.py`. -/
inductive PyErr where
  | attributeError
  | typeError
  | keyError
  | indexError
  | nameError
  | valueError
deriving DecidableEq, Repr

instance {ε α : Type} [DecidableEq ε] [DecidableEq α] : DecidableEq (Except ε α) := fun a b =>
  match a, b with
  | .error x, .error y =>
    if h : x = y then isTrue (by rw [h]) else isFalse (fun hc => by cases hc; exact h rfl)
  | .error _, .ok _ => isFalse (fun hc => by cases hc)
  | .ok _, .error _ => isFalse (fun hc => by cases hc)
  | .ok x, .ok y =>
    if h : x = y then isTrue (by rw [h]) else isFalse (fun hc => by cases hc; exact h rfl)

/-- A canonical programme dictionary as appended to `programme_data`
(`title`, `description`, `start`, `stop`, `icon`, `channel`).
Timestamps are epoch microseconds: Python's `datetime`/`timedelta` have
exactly microsecond resolution, and every timestamp arising in the
script is exact at that resolution, so integer microseconds model the
float epoch values without loss. -/
structure Programme where
  title : String
  description : Option String
  start : Int
  stop : Int
  icon : Option String
  channel : String
deriving DecidableEq, Repr

/-! ## Duration parser (`parse_duration`, main.py lines 19-51)

The source matches
`^P(?:(\d+)Y)?(?:(\d+)M)?(?:(\d+)D)?T(?:(\d+)H)?(?:(\d+)M)?(?:(\d+(?:.\d+)?)S)?$`
and converts groups 3-6 with `int`/`float`; groups 1-2 (years, months)
are captured but never read.  The embedding below is a deterministic
parser equivalent to that regex on ASCII input (`\d` is modeled as the
ASCII digits; Python's `re` would additionally accept other Unicode
decimal digits, which no claim exercises).  Notes on fidelity:

* the `.` inside the seconds group is an unescaped regex dot, so it
  matches any character except a newline — not only a decimal point;
* `$` in Python also matches just before one trailing newline, so a
  single trailing `'\n'` is accepted;
* `float(...)` applied to the captured seconds text fails with
  `ValueError` unless the separator character is one of `.`, `e`, `E`
  (exponent) or `_` (digit-group separator), which are modeled exactly.
-/

/-- Value of a list of ASCII digit characters. -/
def natOfDigits (ds : List Char) : Nat :=
  ds.foldl (fun acc c => acc * 10 + (c.toNat - 48)) 0

/-- Split off the maximal leading run of ASCII digits (regex `\d+`, greedy). -/
def digitsSpan : List Char → List Char × List Char
  | [] => ([], [])
  | c :: cs =>
    if c.isDigit then
      let p := digitsSpan cs
      (c :: p.1, p.2)
    else ([], c :: cs)

/-- Parse an optional `(?:(\d+)X)?` component: a digit run followed by the
given letter.  If the letter does not follow, nothing is consumed. -/
def optNum (letter : Char) (cs : List Char) : Option Nat × List Char :=
  let p := digitsSpan cs
  match p.1, p.2 with
  | [], _ => (none, cs)
  | ds, r :: rest => if r = letter then (some (natOfDigits ds), rest) else (none, cs)
  | _, [] => (none, cs)

/-- The text captured by the seconds group `(\d+(?:.\d+)?)`: an integer
digit run, optionally followed by one arbitrary non-newline character
(the unescaped regex `.`) and another digit run. -/
structure SecLit where
  ip : Nat
  sep : Option Char
  fracVal : Nat
  fracLen : Nat
deriving DecidableEq, Repr

/-- Parse the optional seconds component `(?:(\d+(?:.\d+)?)S)?`.
The regex engine tries the greedy inner option first (any non-newline
character, then digits, then `S`) and falls back to the plain-`S` parse;
if neither works the whole component is absent and nothing is consumed. -/
def optSec (cs : List Char) : Option SecLit × List Char :=
  let p := digitsSpan cs
  match p.1 with
  | [] => (none, cs)
  | ds =>
    match p.2 with
    | [] => (none, cs)
    | c :: rest =>
      if c ≠ '\n' then
        let q := digitsSpan rest
        match q.1, q.2 with
        | _ :: _, 'S' :: rest2 =>
          (some ⟨natOfDigits ds, some c, natOfDigits q.1, q.1.length⟩, rest2)
        | _, _ =>
          if c = 'S' then (some ⟨natOfDigits ds, none, 0, 0⟩, rest) else (none, cs)
      else
        if c = 'S' then (some ⟨natOfDigits ds, none, 0, 0⟩, rest) else (none, cs)

/-- The capture groups of the duration regex. -/
structure DurGroups where
  y : Option Nat
  mo : Option Nat
  d : Option Nat
  h : Option Nat
  mi : Option Nat
  s : Option SecLit
deriving DecidableEq, Repr

/-- Anchored match of the duration regex
`^P(?:(\d+)Y)?(?:(\d+)M)?(?:(\d+)D)?T(?:(\d+)H)?(?:(\d+)M)?(?:(\d+(?:.\d+)?)S)?$`
(returns `none` when `re.match` returns `None`). -/
def durMatch (str : String) : Option DurGroups :=
  match str.toList with
  | 'P' :: cs0 =>
    let py := optNum 'Y' cs0
    let pmo := optNum 'M' py.2
    let pd := optNum 'D' pmo.2
    match pd.2 with
    | 'T' :: cs4 =>
      let ph := optNum 'H' cs4
      let pmi := optNum 'M' ph.2
      let ps := optSec pmi.2
      if ps.2 = [] ∨ ps.2 = ['\n'] then
        some ⟨py.1, pmo.1, pd.1, ph.1, pmi.1, ps.1⟩
      else none
    | _ => none
  | _ => none

/-- Round-half-even division (Python `round`, used when `timedelta`
converts float seconds to whole microseconds). -/
def roundHalfEven (num den : Nat) : Nat :=
  let q := num / den
  let r := num % den
  if 2 * r < den then q
  else if den < 2 * r then q + 1
  else if q % 2 = 0 then q else q + 1

/-- Python `float` applied to the text of the seconds capture, expressed
as microseconds under `timedelta`'s microsecond-resolution storage.  The
captured text is `ip`, optionally `sep` followed by `fracLen` digits of
value `fracVal`; `float` accepts `.` (fraction), `e`/`E` (exponent) and
`_` (separator between digits), and raises `ValueError` otherwise.
Fractions finer than a microsecond are rounded half-even as `timedelta`
does; all values exercised by the claims are exact. -/
def secUsOfSecLit (s : SecLit) : Except PyErr Int :=
  match s.sep with
  | none => .ok ((s.ip * 1000000 : Nat) : Int)
  | some c =>
    if c = '.' then
      .ok ((s.ip * 1000000 + roundHalfEven (s.fracVal * 1000000) (10 ^ s.fracLen) : Nat) : Int)
    else if c = 'e' ∨ c = 'E' then .ok ((s.ip * 10 ^ s.fracVal * 1000000 : Nat) : Int)
    else if c = '_' then .ok (((s.ip * 10 ^ s.fracLen + s.fracVal) * 1000000 : Nat) : Int)
    else .error .valueError

/-- `parse_duration` (main.py lines 19-51): match the regex, raise
`ValueError` on failure, otherwise build
`timedelta(days=m[3], hours=m[4], minutes=m[5], seconds=float(m[6]))`
with absent groups defaulting to zero.  The result is the timedelta's
total elapsed time in microseconds.  Groups 1 and 2 (years, months) are
captured but never read, per the comment in the source. -/
def parse_duration (iso_duration : String) : Except PyErr Int :=
  match durMatch iso_duration with
  | none => .error .valueError
  | some g =>
    let base : Int :=
      (((g.d.getD 0 * 86400 + g.h.getD 0 * 3600 + g.mi.getD 0 * 60) * 1000000 : Nat) : Int)
    match g.s with
    | none => .ok base
    | some sl =>
      match secUsOfSecLit sl with
      | .error e => .error e
      | .ok secs => .ok (base + secs)

/-! ## Calendar arithmetic and the Europe/London timezone

`main.py` parses BT transmission times with
`datetime.strptime(s, "%Y-%m-%dT%H:%M:%S.000Z")` (a naive datetime
holding the literal digits) and converts with
`tz.fromutc(naive).timestamp()` where `tz = pytz.timezone('Europe/London')`.
pytz's `fromutc` treats a naive datetime as a UTC reading: it adds the
zone's UTC offset at that instant to the wall-clock fields and attaches
a fixed-offset tzinfo carrying that offset.  `datetime.timestamp()` on
the resulting aware value subtracts the attached offset again.

The civil-to-epoch conversion below is the standard days-from-civil
algorithm; the Europe/London rules are those of pytz's table for the
modern era (from 1996 on): UTC+1 between 01:00 UTC on the last Sunday
of March and 01:00 UTC on the last Sunday of October, UTC+0 otherwise.
All instants exercised by the claims are in 2024.
-/

/-- A timezone-naive `datetime` (calendar fields only). -/
structure NaiveDT where
  year : Nat
  month : Nat
  day : Nat
  hour : Nat
  minute : Nat
  second : Nat
deriving DecidableEq, Repr

/-- Days from 0000-03-01-anchored civil reckoning (Hinnant's algorithm,
shifted to stay in `Nat`); `civilDays 1970 1 1 = 719468`. -/
def civilDays (y m d : Nat) : Nat :=
  let y' := if m ≤ 2 then y - 1 else y
  let era := y' / 400
  let yoe := y' % 400
  let mp := (m + 9) % 12
  let doy := (153 * mp + 2) / 5 + d - 1
  let doe := yoe * 365 + yoe / 4 - yoe / 100 + doy
  era * 146097 + doe

/-- Days since the Unix epoch of a civil date. -/
def epochDays (y m d : Nat) : Int := (civilDays y m d : Int) - 719468

/-- Epoch seconds of a naive datetime read as UTC (the literal-digits
instant). -/
def utcEpoch (t : NaiveDT) : Int :=
  86400 * epochDays t.year t.month t.day + 3600 * t.hour + 60 * t.minute + t.second

/-- Day of month of the last Sunday of a 31-day month (March and October
both have 31 days).  `(civilDays y m 31 + 3) % 7` is 0 exactly when the
31st is a Sunday. -/
def lastSunday (y m : Nat) : Nat := 31 - (civilDays y m 31 + 3) % 7

/-- Epoch second at which British Summer Time starts in year `y`
(01:00 UTC, last Sunday of March). -/
def londonBstStart (y : Nat) : Int := utcEpoch ⟨y, 3, lastSunday y 3, 1, 0, 0⟩

/-- Epoch second at which British Summer Time ends in year `y`
(01:00 UTC, last Sunday of October). -/
def londonBstEnd (y : Nat) : Int := utcEpoch ⟨y, 10, lastSunday y 10, 1, 0, 0⟩

/-- Europe/London UTC offset in seconds at the instant given by reading
`t` as UTC (pytz transition lookup). -/
def londonOffsetAtUtc (t : NaiveDT) : Int :=
  if londonBstStart t.year ≤ utcEpoch t ∧ utcEpoch t < londonBstEnd t.year then 3600 else 0

/-- An offset-aware `datetime`: the wall-clock fields (encoded as the
epoch value of the same digits read as UTC) plus the attached tzinfo's
UTC offset. -/
structure AwareDT where
  wallEpoch : Int
  utcoffset : Int
deriving DecidableEq, Repr

/-- pytz `tz.fromutc(naive)`: shift the wall clock by the offset at the
instant `naive`-as-UTC and attach that offset. -/
def tzFromutc (t : NaiveDT) : AwareDT :=
  { wallEpoch := utcEpoch t + londonOffsetAtUtc t
    utcoffset := londonOffsetAtUtc t }

/-- `datetime.timestamp()` on an aware datetime: wall-clock reading minus
the attached UTC offset (epoch seconds). -/
def awareTimestamp (a : AwareDT) : Int := a.wallEpoch - a.utcoffset

/-- The epoch seconds the BT branch computes for a transmission time
(main.py lines 195-198): `int(tz.fromutc(strptime(...)).timestamp())`.
The value is a whole number of seconds, so `int(...)` truncates nothing. -/
def btInstant (t : NaiveDT) : Int := awareTimestamp (tzFromutc t)

/-- Modelled from the spec: the spec asserts the literal digits of a BT
timestamp denote Europe/London wall-clock time and must be converted to
UTC via that zone's offset rules.  This comparator interprets `t` as a
London wall-clock reading: during the BST wall-clock window (which lags
the UTC window of `londonOffsetAtUtc` by the one-hour offset itself) the
offset 3600 is subtracted, otherwise 0. -/
def specLocalToUtc (t : NaiveDT) : Int :=
  if londonBstStart t.year + 3600 ≤ utcEpoch t ∧ utcEpoch t < londonBstEnd t.year + 3600
  then utcEpoch t - 3600 else utcEpoch t

/-! ## Sky adapter (main.py lines 155-180) -/

/-- One Sky listing item: `t` (title), optional `d` (description),
`s` (epoch-second start), `m` (a pair whose second element the source
adds to the start, `item['m'][1]`), optional `img`. -/
structure SkyItem where
  t : String
  d : Option String
  s : Int
  m : Int × Int
  img : Option String
deriving DecidableEq, Repr

/-- The Sky icon base URL the source templates ids into. -/
def skyImageBase : String := "http://epgstatic.sky.com/epgdata/1.0/paimage/46/1/"

/-- Programme built from one Sky listing item (main.py lines 166-180):
`start = int(item['s'])`, `end = int(item['s']) + int(item['m'][1])`;
epoch seconds are scaled to the embedding's microsecond timestamps. -/
def skyProgOfItem (chName : String) (item : SkyItem) : Programme :=
  { title := item.t
    description := item.d
    start := item.s * 1000000
    stop := (item.s + item.m.2) * 1000000
    icon := item.img.map (fun i => skyImageBase ++ i)
    channel := chName }

/-! ## BT adapter (main.py lines 183-209) -/

/-- One entry of `result['schedule']['entries']`.  `title` stands for the
chain `x.get('item').get('display_title').get('title')` (collapsed:
`none` when any link is missing, in which case Python's `.strip()` on
`None` raises `AttributeError`); `description` for
`x.get('item').get('description')`; the transmission times are the
strptime results (naive datetimes holding the literal digits). -/
structure BtEntry where
  title : Option String
  description : Option String
  transmission_time : NaiveDT
  transmission_end_time : NaiveDT
  image : Option String
deriving DecidableEq, Repr

/-- Python `str.strip()` with no argument: remove leading and trailing
whitespace. -/
def pyStrip (s : String) : String :=
  ⟨((s.data.dropWhile Char.isWhitespace).reverse.dropWhile Char.isWhitespace).reverse⟩

/-- Processing of one BT schedule entry (main.py lines 192-209).  The
source runs `.strip()` on title and description before touching the
times, so a missing field raises `AttributeError` (there is no guard). -/
def btProcEntry (chName : String) (e : BtEntry) : Except PyErr Programme :=
  match e.title with
  | none => .error .attributeError
  | some t =>
    match e.description with
    | none => .error .attributeError
    | some d =>
      .ok { title := pyStrip t
            description := some (pyStrip d)
            start := btInstant e.transmission_time * 1000000
            stop := btInstant e.transmission_end_time * 1000000
            icon := e.image
            channel := chName }

/-- The per-window BT loop body over `result['schedule']['entries']`:
programmes are appended in order; the first uncaught exception aborts
the run. -/
def btProcEntries (chName : String) : List BtEntry → Except PyErr (List Programme)
  | [] => .ok []
  | e :: rest =>
    match btProcEntry chName e with
    | .error err => .error err
    | .ok p =>
      match btProcEntries chName rest with
      | .error err => .error err
      | .ok ps => .ok (p :: ps)

/-! ## BBC radio adapter and boundary inference (main.py lines 212-289)

The page for one (channel, calendar day) is a list of schedule `section`s
(in page order; the standard layout is early, morning, afternoon,
evening, late) each containing programme item blocks.  Each block yields
an air time (`strptime "%H:%M"`, so minutes in `[0, 1440)`, modeled as
`Fin 1440`), a title, a description and a thumbnail.  Datetimes here are
modeled as minutes: `datetime.combine(date, time)` becomes
`day * 1440 + minutes`, and `.date()` becomes `/ 1440`.

Control flow subtleties carried over from the source:

* the two early/late cutoff `continue`s (lines 235-240) fire before the
  lookahead, so a dropped item does not refresh `next_start`;
* the second late-cutoff check (lines 248-250) re-tests the identical
  condition and can never fire; it is kept in place;
* `next_start` is a loop-carried Python variable: when the lookahead
  falls off the last item of the last section it silently keeps its
  previous value (or raises `NameError` if it was never assigned);
* the `except IndexError` handler reads the first item block of the next
  section; if that section has no item blocks, `find(...)` returns
  `None` and the `.find` on it raises an uncaught `AttributeError`;
* `p_idx == len(programme_items) - 1` is the "current item is last"
  test, i.e. the remaining tail is empty; `p_idx + 1` indexing raises
  `IndexError` exactly when the tail is empty; both are rendered with
  the structural tail `rest`;
* positions use the positional indices `s_idx`/`p_idx` of the enumerate
  loops: the stop-assignment branches test `s_idx == 3` / `s_idx == 4`,
  while the cutoffs test the section label.
-/

/-- One BBC schedule item block: air time (minutes of day), title,
description and thumbnail extracted from its sub-elements. -/
structure RadioItem where
  airTime : Fin 1440
  title : String
  desc : String
  thumb : String
deriving DecidableEq, Repr

/-- One schedule section: its `aria-labelledby` label and its item
blocks in page order. -/
structure RadioSection where
  label : String
  items : List RadioItem
deriving DecidableEq, Repr

/-- A BBC programme before the driver attaches channel name and converts
naive datetimes to timestamps; `start`/`stop` are naive minutes
(`day * 1440 + minute-of-day`). -/
structure BbcProg where
  title : String
  description : String
  icon : String
  start : Nat
  stop : Nat
deriving DecidableEq, Repr

/-- The `try/except IndexError` lookahead (main.py lines 255-267):
the next item of the current section if one exists, otherwise the first
item block of the next section (uncaught `AttributeError` if that
section is empty), otherwise the stale `next_start` value. -/
def lookahead (rest : List RadioItem) (nextSec : Option RadioSection)
    (stale : Option Nat) : Except PyErr (Option Nat) :=
  match rest with
  | nxt :: _ => .ok (some (nxt.airTime : Nat))
  | [] =>
    match nextSec with
    | some sec =>
      match sec.items with
      | it2 :: _ => .ok (some (it2.airTime : Nat))
      | [] => .error .attributeError
    | none => .ok stale

/-- Processing of one item block (main.py lines 229-289).  Arguments:
the enumerate indices' data (`sIdx`, the section `label`, the section's
total block count `fullLen`, the following section `nextSec`), the item
and the structural tail `rest` of the section's remaining items, and the
loop-carried `next_start` value.  Returns the updated `next_start` and
the programme appended for this item, if any. -/
def procItem (d sIdx : Nat) (label : String) (fullLen : Nat)
    (nextSec : Option RadioSection) (it : RadioItem) (rest : List RadioItem)
    (stale : Option Nat) : Except PyErr (Option Nat × Option BbcProg) :=
  if label = "early" ∧ 420 ≤ (it.airTime : Nat) then .ok (stale, none)
  else if label = "late" ∧ 30 < (it.airTime : Nat) then .ok (stale, none)
  else
    let progStart0 := d * 1440 + (it.airTime : Nat)
    if label = "late" ∧ 30 < (it.airTime : Nat) then .ok (stale, none)
    else
      match lookahead rest nextSec stale with
      | .error e => .error e
      | .ok nsOpt =>
        if sIdx = 3 ∧ rest = [] then
          match nsOpt with
          | none => .error .nameError
          | some ns =>
            .ok (nsOpt, some ⟨it.title, it.desc, it.thumb, progStart0,
                  (progStart0 / 1440 + 1) * 1440 + ns⟩)
        else if sIdx = 4 then
          if fullLen = 1 ∨ rest = [] then .ok (nsOpt, none)
          else
            match nsOpt with
            | none => .error .nameError
            | some ns =>
              let newStart := (progStart0 / 1440 + 1) * 1440 + (it.airTime : Nat)
              .ok (nsOpt, some ⟨it.title, it.desc, it.thumb, newStart,
                    (newStart / 1440) * 1440 + ns⟩)
        else
          match nsOpt with
          | none => .error .nameError
          | some ns =>
            .ok (nsOpt, some ⟨it.title, it.desc, it.thumb, progStart0,
                  (progStart0 / 1440) * 1440 + ns⟩)

/-- The inner `for p_idx, item in enumerate(programme_items)` loop,
threading `next_start` and collecting appended programmes in order. -/
def procItems (d sIdx : Nat) (label : String) (fullLen : Nat)
    (nextSec : Option RadioSection) :
    List RadioItem → Option Nat → Except PyErr (Option Nat × List BbcProg)
  | [], stale => .ok (stale, [])
  | it :: rest, stale =>
    match procItem d sIdx label fullLen nextSec it rest stale with
    | .error e => .error e
    | .ok (st1, po) =>
      match procItems d sIdx label fullLen nextSec rest st1 with
      | .error e => .error e
      | .ok (st2, ps) => .ok (st2, po.toList ++ ps)

/-- The outer `for s_idx, section in enumerate(sections)` loop. -/
def procSecs (d : Nat) (sIdx : Nat) :
    List RadioSection → Option Nat → Except PyErr (Option Nat × List BbcProg)
  | [], stale => .ok (stale, [])
  | sec :: rest, stale =>
    match procItems d sIdx sec.label sec.items.length rest.head? sec.items stale with
    | .error e => .error e
    | .ok (st1, ps) =>
      match procSecs d (sIdx + 1) rest st1 with
      | .error e => .error e
      | .ok (st2, ps2) => .ok (st2, ps ++ ps2)

/-- Processing of one BBC channel/day page: all sections in order,
`next_start` initially unassigned. -/
def bbcDay (d : Nat) (secs : List RadioSection) : Except PyErr (List BbcProg) :=
  match procSecs d 0 secs none with
  | .error e => .error e
  | .ok (_, ps) => .ok ps

/-- The standard five-section layout of a BBC schedule page (the labels
the source's cutoffs and the comment at line 222 name). -/
def stdPage (e m a v l : List RadioItem) : List RadioSection :=
  [⟨"early", e⟩, ⟨"morning", m⟩, ⟨"afternoon", a⟩, ⟨"evening", v⟩, ⟨"late", l⟩]

/-- The flattened position of one item block: its section's enumerate
data and the structural tail of items after it in its section. -/
structure FlatEntry where
  sIdx : Nat
  label : String
  fullLen : Nat
  nextSec : Option RadioSection
  item : RadioItem
  rest : List RadioItem
deriving DecidableEq, Repr

/-- Flat entries of one section's item list (tail-recorded positions). -/
def goItems (sIdx : Nat) (label : String) (fullLen : Nat)
    (nextSec : Option RadioSection) : List RadioItem → List FlatEntry
  | [] => []
  | it :: rest => ⟨sIdx, label, fullLen, nextSec, it, rest⟩ :: goItems sIdx label fullLen nextSec rest

/-- Flat entries of one section. -/
def sectionEntries (sIdx : Nat) (sec : RadioSection) (nextSec : Option RadioSection) :
    List FlatEntry :=
  goItems sIdx sec.label sec.items.length nextSec sec.items

/-- Flat entries of a list of sections, numbering from `sIdx`. -/
def goSecs (sIdx : Nat) : List RadioSection → List FlatEntry
  | [] => []
  | sec :: rest => sectionEntries sIdx sec rest.head? ++ goSecs (sIdx + 1) rest

/-- All item positions of a page, in broadcast (page) order. -/
def flatEntries (secs : List RadioSection) : List FlatEntry := goSecs 0 secs

/-- The stale-free emission function: what `procItem` appends for a
position when the loop-carried `next_start` value is unassigned —
`none` where the item is dropped by a cutoff, skipped by the
last-section rule, or where the source would crash or fall back to a
stale value (within a standard five-section page no emitted item ever
consults the stale value, so this is exactly what is emitted). -/
def emitAt (d : Nat) (en : FlatEntry) : Option BbcProg :=
  match procItem d en.sIdx en.label en.fullLen en.nextSec en.item en.rest none with
  | .error _ => none
  | .ok (_, po) => po

/-- Contiguity relation between two flat positions: any programmes both
emit satisfy `stop = start`. -/
def Contig (d : Nat) (x y : FlatEntry) : Prop :=
  ∀ A B, emitAt d x = some A → emitAt d y = some B → A.stop = B.start

/-! ## Freeview adapter (main.py lines 291-353)

The guide call returns `result['data']['programs']`, a list of per-service
records filtered down to the channel's `service_id`; each record carries
`events`.  For each event the source parses `start_time` (an
offset-aware timestamp whose epoch value is modeled directly) and the
ISO duration, then performs a per-item detail fetch whose body is parsed
inside `try: json.loads ... except: continue` — the only guarded
failure.  The detail response is then dereferenced without guards:
a missing `'programs'` key makes `info = None` and the following
membership test `'synopsis' in info` raises `TypeError`; an empty
`programs` list makes `[0]` raise `IndexError`.  The detail fetch's HTTP
status is never checked; the fetch-and-parse pair is modeled as one
function returning the parsed body or a parse failure. -/

/-- A `synopsis` object of the detail endpoint. -/
structure FvSynopsis where
  medium : Option String
deriving DecidableEq, Repr

/-- One record of the detail endpoint's `data.programs`. -/
structure FvInfo where
  synopsis : Option FvSynopsis
  image_url : Option String
deriving DecidableEq, Repr

/-- The `data` object of a parsed detail response (`programs` is `none`
when the key is absent). -/
structure FvData where
  programs : Option (List FvInfo)
deriving DecidableEq, Repr

/-- A parsed detail response body. -/
structure FvRes where
  data : FvData
deriving DecidableEq, Repr

/-- One event of a guide listing. -/
structure FvListing where
  main_title : String
  secondary_title : Option String
  start_time : Int
  duration : String
  program_id : String
  fallback_image_url : Option String
deriving DecidableEq, Repr

/-- One record of the guide endpoint's `data.programs`. -/
structure FvProgram where
  service_id : String
  events : List FvListing
deriving DecidableEq, Repr

/-- Processing of one Freeview event (main.py lines 311-353).  `detail`
is the per-item fetch-and-parse, keyed by the event's `program_id` (the
query also repeats sid/nid/start/duration); `.error` means `json.loads`
raised, which the source turns into `continue` — the event is dropped.
`start_time` is epoch seconds (the claims' instants are whole seconds);
timestamps are scaled to microseconds and the parsed duration (already
in microseconds) is added.  The listing-derived description is
overwritten unconditionally once the detail body is available, exactly
as in the source. -/
def fvListingProc (detail : String → Except Unit FvRes) (chName : String)
    (l : FvListing) : Except PyErr (Option Programme) :=
  let title := l.main_title
  match parse_duration l.duration with
  | .error e => .error e
  | .ok durUs =>
    let startUs : Int := l.start_time * 1000000
    let endUs : Int := startUs + durUs
    match detail l.program_id with
    | .error _ => .ok none
    | .ok res =>
      match res.data.programs with
      | none => .error .typeError
      | some [] => .error .indexError
      | some (info :: _) =>
        let descr : Option String :=
          match info.synopsis with
          | some syn => syn.medium
          | none => some ""
        let icon : Option String :=
          match info.image_url with
          | some u => some (u ++ "?w=800")
          | none =>
            match l.fallback_image_url with
            | some u => some (u ++ "?w=800")
            | none => none
        .ok (some { title := title, description := descr, start := startUs,
                    stop := endUs, icon := icon, channel := chName })

/-- The `for listing in item.get('events')` loop. -/
def fvEvents (detail : String → Except Unit FvRes) (chName : String) :
    List FvListing → Except PyErr (List Programme)
  | [] => .ok []
  | l :: rest =>
    match fvListingProc detail chName l with
    | .error e => .error e
    | .ok po =>
      match fvEvents detail chName rest with
      | .error e => .error e
      | .ok ps => .ok (po.toList ++ ps)

/-- The `for item in ch_match` loop over service-filtered records. -/
def fvPrograms (detail : String → Except Unit FvRes) (chName : String) :
    List FvProgram → Except PyErr (List Programme)
  | [] => .ok []
  | p :: rest =>
    match fvEvents detail chName p.events with
    | .error e => .error e
    | .ok ps =>
      match fvPrograms detail chName rest with
      | .error e => .error e
      | .ok ps2 => .ok (ps ++ ps2)

/-! ## Channel registry and driver loop (main.py lines 148-355)

A channel record exposes the attributes the script indexes positionally:
`channel[0][1]` (source kind), `channel[2][1]` (the xmltv id used as the
programme's `channel`), `channel[3][1]` (service id), `channel[4][1]`
(network id / display name).  The `Env` record injects the network and
the wall-clock-dependent `get_days` windows; a fetch returning `none`
models a non-200 status (`continue`). -/

/-- One channel record from `freeview_channels.xml`. -/
structure Channel where
  src : String
  chId : String
  sid : String
  nid : String
deriving DecidableEq, Repr

/-- The injected environment: window lists from `get_days` and the
parsed bodies of each fetch (`none` = non-200 response).  `bbcLocalTs`
converts a BBC naive datetime (in minutes) to the platform-local epoch
microseconds that `datetime.timestamp()` yields on a naive value. -/
structure Env where
  skyDays : List Int
  btDays : List Int
  bbcDays : List Nat
  fvDays : List Int
  skyFetch : String → Int → Option (List SkyItem)
  btFetch : String → Int → Option (List BtEntry)
  bbcFetch : String → Nat → Option (List RadioSection)
  fvFetch : String → Int → Option (List FvProgram)
  fvDetail : String → Except Unit FvRes
  bbcLocalTs : Nat → Int

/-- One Sky window (main.py lines 158-180): skipped on non-200,
otherwise every listing item becomes a programme. -/
def skyWindow (env : Env) (ch : Channel) (ep : Int) : List Programme :=
  match env.skyFetch ch.sid ep with
  | none => []
  | some items => items.map (skyProgOfItem ch.chId)

/-- The Sky branch over its three windows. -/
def skyChannelRun (env : Env) (ch : Channel) : List Programme :=
  (env.skyDays.map (skyWindow env ch)).flatten

/-- One BT window (main.py lines 185-209). -/
def btWindow (env : Env) (ch : Channel) (t : Int) : Except PyErr (List Programme) :=
  match env.btFetch ch.sid t with
  | none => .ok []
  | some entries => btProcEntries ch.chId entries

/-- The BT branch over its windows. -/
def btWindows (env : Env) (ch : Channel) : List Int → Except PyErr (List Programme)
  | [] => .ok []
  | t :: rest =>
    match btWindow env ch t with
    | .error e => .error e
    | .ok l =>
      match btWindows env ch rest with
      | .error e => .error e
      | .ok l2 => .ok (l ++ l2)

/-- The BT branch. -/
def btChannelRun (env : Env) (ch : Channel) : Except PyErr (List Programme) :=
  btWindows env ch env.btDays

/-- Driver-side conversion of a BBC programme (main.py lines 282-289):
attach the channel, wrap description/icon, convert naive datetimes with
`datetime.timestamp()`. -/
def bbcToProgramme (env : Env) (chName : String) (p : BbcProg) : Programme :=
  { title := p.title
    description := some p.description
    start := env.bbcLocalTs p.start
    stop := env.bbcLocalTs p.stop
    icon := some p.icon
    channel := chName }

/-- One BBC day page (main.py lines 213-289). -/
def bbcWindow (env : Env) (ch : Channel) (d : Nat) : Except PyErr (List Programme) :=
  match env.bbcFetch ch.sid d with
  | none => .ok []
  | some secs =>
    match bbcDay d secs with
    | .error e => .error e
    | .ok ps => .ok (ps.map (bbcToProgramme env ch.chId))

/-- The BBC branch over its date pages. -/
def bbcWindows (env : Env) (ch : Channel) : List Nat → Except PyErr (List Programme)
  | [] => .ok []
  | d :: rest =>
    match bbcWindow env ch d with
    | .error e => .error e
    | .ok l =>
      match bbcWindows env ch rest with
      | .error e => .error e
      | .ok l2 => .ok (l ++ l2)

/-- The BBC branch. -/
def bbcChannelRun (env : Env) (ch : Channel) : Except PyErr (List Programme) :=
  bbcWindows env ch env.bbcDays

/-- One Freeview window (main.py lines 293-353): fetch the guide page,
filter records to the channel's `service_id`, process all their events. -/
def fvWindow (env : Env) (ch : Channel) (ep : Int) : Except PyErr (List Programme) :=
  match env.fvFetch ch.nid ep with
  | none => .ok []
  | some programs =>
    fvPrograms env.fvDetail ch.chId (programs.filter (fun p => p.service_id = ch.sid))

/-- The Freeview block over its windows. -/
def fvWindows (env : Env) (ch : Channel) : List Int → Except PyErr (List Programme)
  | [] => .ok []
  | ep :: rest =>
    match fvWindow env ch ep with
    | .error e => .error e
    | .ok l =>
      match fvWindows env ch rest with
      | .error e => .error e
      | .ok l2 => .ok (l ++ l2)

/-- The Freeview block (main.py lines 291-353). -/
def fvRun (env : Env) (ch : Channel) : Except PyErr (List Programme) :=
  fvWindows env ch env.fvDays

/-- The body of `for channel in channels_data` (main.py lines 152-289):
three independent `if channel[0][1] == ...` tests for sky, bt and
bbc_radio.  The freeview test is NOT part of the loop body: in the
source it sits at column zero (line 291), outside the loop. -/
def channelLoopBody (env : Env) (ch : Channel) : Except PyErr (List Programme) :=
  let skyPart := if ch.src = "sky" then skyChannelRun env ch else []
  match (if ch.src = "bt" then btChannelRun env ch else .ok []) with
  | .error e => .error e
  | .ok btPart =>
    match (if ch.src = "bbc_radio" then bbcChannelRun env ch else .ok []) with
    | .error e => .error e
    | .ok bbcPart => .ok (skyPart ++ btPart ++ bbcPart)

/-- The channel loop, accumulating `programme_data` in order. -/
def mainLoop (env : Env) : List Channel → Except PyErr (List Programme)
  | [] => .ok []
  | ch :: rest =>
    match channelLoopBody env ch with
    | .error e => .error e
    | .ok l =>
      match mainLoop env rest with
      | .error e => .error e
      | .ok l2 => .ok (l ++ l2)

/-- The whole run up to the `build_xmltv` call (main.py lines 151-355):
the channel loop, then — at top level, after the loop — the freeview
test against the loop variable `channel`, which at that point holds the
LAST channel record (`NameError` if the registry is empty).  The result
is the `programme_data` list handed to the document writer. -/
def mainRun (env : Env) (channels : List Channel) : Except PyErr (List Programme) :=
  match mainLoop env channels with
  | .error e => .error e
  | .ok acc =>
    match channels.getLast? with
    | none => .error .nameError
    | some last =>
      if last.src = "freeview" then
        match fvRun env last with
        | .error e => .error e
        | .ok l => .ok (acc ++ l)
      else .ok acc

/-! ## Concrete fixtures for counterexamples and witnesses -/

/-- A detail endpoint whose every response body fails `json.loads`. -/
def fvDetailFail : String → Except Unit FvRes := fun _ => .error ()

/-- A concrete Freeview event. -/
def fvListingW : FvListing :=
  ⟨"Show", some "Ep", 1700000000, "PT1H30M", "pid1", none⟩

/-- A Sky environment serving two windows for the same channel, where the
second window repeats the start of the first with a different title and
also carries an earlier-starting item. -/
def skyEnvC2 : Env :=
  { skyDays := [10, 20]
    btDays := []
    bbcDays := []
    fvDays := []
    skyFetch := fun _ ep =>
      if ep = 10 then some [⟨"A", none, 100, (0, 60), none⟩]
      else some [⟨"B", none, 100, (0, 60), none⟩, ⟨"C", none, 50, (0, 10), none⟩]
    btFetch := fun _ _ => none
    bbcFetch := fun _ _ => none
    fvFetch := fun _ _ => none
    fvDetail := fun _ => .error ()
    bbcLocalTs := fun n => n }

/-- A Sky-sourced channel record. -/
def chC2 : Channel := ⟨"sky", "CH", "sid", "nid"⟩

/-- A BT entry with title and description present. -/
def btGoodEntry : BtEntry :=
  ⟨some "T1", some "D1", ⟨2024, 1, 15, 12, 0, 0⟩, ⟨2024, 1, 15, 13, 0, 0⟩, none⟩

/-- A BT entry whose optional `description` field is absent. -/
def btBadEntry : BtEntry :=
  ⟨some "T2", none, ⟨2024, 1, 15, 13, 0, 0⟩, ⟨2024, 1, 15, 14, 0, 0⟩, none⟩

/-- A second well-formed BT entry, after the broken one. -/
def btGoodEntry2 : BtEntry :=
  ⟨some "T3", some "D3", ⟨2024, 1, 15, 14, 0, 0⟩, ⟨2024, 1, 15, 15, 0, 0⟩, none⟩

/-- A BT environment whose single window returns a well-formed entry, an
entry missing its description, and another well-formed entry. -/
def btEnvC7 : Env :=
  { skyDays := []
    btDays := [5]
    bbcDays := []
    fvDays := []
    skyFetch := fun _ _ => none
    btFetch := fun _ _ => some [btGoodEntry, btBadEntry, btGoodEntry2]
    bbcFetch := fun _ _ => none
    fvFetch := fun _ _ => none
    fvDetail := fun _ => .error ()
    bbcLocalTs := fun n => n }

/-- A BT-sourced channel record. -/
def chC7 : Channel := ⟨"bt", "BTCH", "sid", "nid"⟩

/-- An environment for the freeview-placement claim: the sky channel's
single window returns one item, the freeview guide always answers. -/
def envC9 : Env :=
  { skyDays := [0]
    btDays := []
    bbcDays := []
    fvDays := [0]
    skyFetch := fun _ _ => some [⟨"S", none, 7, (0, 60), none⟩]
    btFetch := fun _ _ => none
    bbcFetch := fun _ _ => none
    fvFetch := fun _ _ => some [⟨"fsid", [fvListingW]⟩]
    fvDetail := fun _ => .error ()
    bbcLocalTs := fun n => n }

/-- A registry whose first channel is freeview-sourced and not last. -/
def channelsC9 : List Channel :=
  [⟨"freeview", "FV1", "fsid", "fnid"⟩, ⟨"sky", "SK2", "ssid", "snid"⟩]

/-- Witness item lists for the standard BBC page. -/
def bbcE : List RadioItem := [⟨360, "E", "de", "ie"⟩]

/-- Morning witness items. -/
def bbcM : List RadioItem := [⟨480, "M", "dm", "im"⟩]

/-- Afternoon witness items. -/
def bbcA : List RadioItem := [⟨720, "A", "da", "ia"⟩]

/-- Evening witness items. -/
def bbcV : List RadioItem := [⟨1080, "V", "dv", "iv"⟩]

/-- Late witness items (both before the 00:30 cutoff). -/
def bbcL : List RadioItem := [⟨10, "L1", "d1", "i1"⟩, ⟨20, "L2", "d2", "i2"⟩]

/-- A late section holding a single item at 00:10. -/
def bbcLoneLate : List RadioItem := [⟨10, "LONELATE", "dl", "il"⟩]

/-! # Theorems -/

/-- Claim C1, counterexample: the Sky branch computes
`end = int(item['s']) + int(item['m'][1])` with no `* 60`; for a
concrete item whose `m` pair is `(0, 60)` the emitted difference is 60
seconds, not `60 * 60` as the claim asserts. -/
theorem sky_minutes_counterexample :
    (skyProgOfItem "c" ⟨"T", none, 1000, (0, 60), none⟩).stop -
      (skyProgOfItem "c" ⟨"T", none, 1000, (0, 60), none⟩).start ≠
    (⟨"T", none, 1000, (0, 60), none⟩ : SkyItem).m.2 * 60 * 1000000 := by decide

/-- Claim C1, amended: for every Sky listing item the emitted Programme
satisfies `stop - start = m[1]` — the second element of the `m` field is
added to the start as a number of seconds, with no factor of 60. -/
theorem sky_stop_minus_start (chName : String) (item : SkyItem) :
    (skyProgOfItem chName item).stop - (skyProgOfItem chName item).start =
      item.m.2 * 1000000 := by
  simp [skyProgOfItem]
  ring

/-- Claim C3, counterexample: for the BT transmission time
2024-07-01T12:00:00.000Z (a BST instant) the branch emits the
literal-UTC reading 1719835200, while interpreting the digits as
Europe/London wall-clock time yields 1719831600; the two differ, so the
emitted instant is NOT the target-timezone interpretation. -/
theorem bt_literal_utc_counterexample :
    btProcEntry "c" ⟨some "T", some "D", ⟨2024, 7, 1, 12, 0, 0⟩, ⟨2024, 7, 1, 13, 0, 0⟩, none⟩ =
      .ok ⟨"T", some "D", 1719835200 * 1000000, 1719838800 * 1000000, none, "c"⟩ ∧
    specLocalToUtc ⟨2024, 7, 1, 12, 0, 0⟩ = 1719831600 ∧
    (1719835200 : Int) * 1000000 ≠ 1719831600 * 1000000 := by decide

/-- Claim C3, amended: for every BT listing entry the emitted instant
equals the literal-UTC interpretation of the timestamp digits —
`tz.fromutc` shifts the wall clock and attaches the same offset, and
`timestamp()` subtracts it again, so the conversion is the identity on
the instant. -/
theorem bt_instant_is_literal_utc (t : NaiveDT) : btInstant t = utcEpoch t := by
  simp [btInstant, awareTimestamp, tzFromutc]

/-- Claim C6, counterexample: with a detail endpoint whose body fails
`json.loads`, the Freeview branch drops the event entirely (the
`except ... continue` skips the `programme_data.append`), instead of
emitting the basic candidate built from the listing. -/
theorem fv_unparseable_detail_counterexample :
    fvListingProc fvDetailFail "c" fvListingW = .ok none ∧
    ∀ p : Programme, fvListingProc fvDetailFail "c" fvListingW ≠ .ok (some p) := by
  refine ⟨by decide, ?_⟩
  intro p hc
  rw [(by decide : fvListingProc fvDetailFail "c" fvListingW = .ok none)] at hc
  cases hc

/-- Claim C6, amended: whenever the per-item detail response body is not
parseable as JSON (and the listing's duration parses, which is checked
first), the Freeview branch emits nothing for the event — the basic
candidate is discarded, not kept. -/
theorem fv_unparseable_detail_drops_item (detail : String → Except Unit FvRes)
    (chName : String) (l : FvListing) (du : Int)
    (hdur : parse_duration l.duration = .ok du)
    (hdet : detail l.program_id = .error ()) :
    fvListingProc detail chName l = .ok none := by
  simp [fvListingProc, hdur, hdet]

/-- Claim C6, witness for the amended theorem at the concrete fixture. -/
theorem fv_unparseable_detail_drops_item_witness :
    parse_duration fvListingW.duration = .ok 5400000000 ∧
    fvDetailFail fvListingW.program_id = .error () ∧
    fvListingProc fvDetailFail "c" fvListingW = .ok none :=
  ⟨by decide, by decide,
    fv_unparseable_detail_drops_item fvDetailFail "c" fvListingW 5400000000
      (by decide) (by decide)⟩

/-- Claim C8: the duration parser maps P1DT2H to one day plus two hours
and PT30S to thirty seconds, raises ValueError on XYZ, and raises
ValueError on every string the restricted grammar does not match. -/
theorem duration_parser_contract :
    parse_duration "P1DT2H" = .ok ((86400 + 7200) * 1000000) ∧
    parse_duration "PT30S" = .ok (30 * 1000000) ∧
    parse_duration "XYZ" = .error .valueError ∧
    ∀ s, durMatch s = none → parse_duration s = .error .valueError := by
  refine ⟨by decide, by decide, by decide, ?_⟩
  intro s h
  simp [parse_duration, h]

/-- Claim C8, witness: the universally quantified clause applied at the
concrete non-matching string XYZ. -/
theorem duration_parser_contract_witness :
    durMatch "XYZ" = none ∧ parse_duration "XYZ" = .error .valueError :=
  ⟨by decide, duration_parser_contract.2.2.2 "XYZ" (by decide)⟩

/-- Claim C10: strings with year or month components that match the
grammar are accepted, and the year/month captures contribute nothing:
P1YT1H parses to exactly one hour, and any two matching strings whose
day/hour/minute/second captures agree parse to the same elapsed time
regardless of their year and month captures. -/
theorem duration_year_month_ignored :
    parse_duration "P1YT1H" = .ok (3600 * 1000000) ∧
    ∀ s1 s2 g1 g2, durMatch s1 = some g1 → durMatch s2 = some g2 →
      g1.d = g2.d → g1.h = g2.h → g1.mi = g2.mi → g1.s = g2.s →
      parse_duration s1 = parse_duration s2 := by
  refine ⟨by decide, ?_⟩
  intro s1 s2 g1 g2 h1 h2 hd hh hmi hs
  simp [parse_duration, h1, h2, hd, hh, hmi, hs]

/-- Claim C10, witness: the invariance clause applied to P1YT1H and
PT1H, whose time captures agree. -/
theorem duration_year_month_ignored_witness :
    durMatch "P1YT1H" = some ⟨some 1, none, none, some 1, none, none⟩ ∧
    durMatch "PT1H" = some ⟨none, none, none, some 1, none, none⟩ ∧
    parse_duration "P1YT1H" = parse_duration "PT1H" :=
  ⟨by decide, by decide,
    duration_year_month_ignored.2 "P1YT1H" "PT1H"
      ⟨some 1, none, none, some 1, none, none⟩
      ⟨none, none, none, some 1, none, none⟩
      (by decide) (by decide) rfl rfl rfl rfl⟩

/-- Claim C2, counterexample: the script appends candidates directly to
`programme_data` and hands that list to `build_xmltv` unchanged — with
two windows carrying candidates of identical (channel, start) and
different titles, BOTH survive (the later window's value does not
replace the earlier), and the final sequence is not sorted by start. -/
theorem assembler_keeps_duplicates_counterexample :
    mainRun skyEnvC2 [chC2] =
      .ok [⟨"A", none, 100000000, 160000000, none, "CH"⟩,
           ⟨"B", none, 100000000, 160000000, none, "CH"⟩,
           ⟨"C", none, 50000000, 60000000, none, "CH"⟩] ∧
    (Programme.channel ⟨"A", none, 100000000, 160000000, none, "CH"⟩ =
      Programme.channel ⟨"B", none, 100000000, 160000000, none, "CH"⟩) ∧
    (Programme.start ⟨"A", none, 100000000, 160000000, none, "CH"⟩ =
      Programme.start ⟨"B", none, 100000000, 160000000, none, "CH"⟩) ∧
    (Programme.title ⟨"A", none, 100000000, 160000000, none, "CH"⟩ ≠
      Programme.title ⟨"B", none, 100000000, 160000000, none, "CH"⟩) ∧
    ¬ List.Pairwise (fun x y : Programme => x.start ≤ y.start)
        [⟨"A", none, 100000000, 160000000, none, "CH"⟩,
         ⟨"B", none, 100000000, 160000000, none, "CH"⟩,
         ⟨"C", none, 50000000, 60000000, none, "CH"⟩] := by
  refine ⟨by decide, by decide, by decide, by decide, by decide⟩

/-- Claim C2, amended: the sequence handed to the document writer is the
plain concatenation of every window's candidates in fetch order — no
candidate with a repeated (channel_id, start) pair is removed, and no
sorting is performed (shown for a registry of one Sky channel, where
deduplication across the three windows would apply). -/
theorem assembler_no_dedup_no_sort (env : Env) (ch : Channel) (h : ch.src = "sky") :
    mainRun env [ch] = .ok ((env.skyDays.map (skyWindow env ch)).flatten) := by
  have h2 : ch.src ≠ "bt" := by rw [h]; decide
  have h3 : ch.src ≠ "bbc_radio" := by rw [h]; decide
  have h4 : ch.src ≠ "freeview" := by rw [h]; decide
  simp [mainRun, mainLoop, channelLoopBody, skyChannelRun,
        if_pos h, if_neg h2, if_neg h3, if_neg h4]

/-- Claim C2, witness for the amended theorem at the concrete Sky
environment. -/
theorem assembler_no_dedup_no_sort_witness :
    chC2.src = "sky" ∧
    mainRun skyEnvC2 [chC2] =
      .ok ((skyEnvC2.skyDays.map (skyWindow skyEnvC2 chC2)).flatten) :=
  ⟨rfl, assembler_no_dedup_no_sort skyEnvC2 chC2 rfl⟩

/-- A BT entry lacking its description makes `btProcEntry` raise
`AttributeError` (`None.strip()`), whatever the rest of the entry
holds. -/
theorem bt_missing_description_errors (chName : String) (e : BtEntry)
    (he : e.description = none) :
    btProcEntry chName e = .error .attributeError := by
  unfold btProcEntry
  cases ht : e.title with
  | none => rfl
  | some t => rw [he]

/-- Claim C7, counterexample: a run over a single BT channel whose
window holds a well-formed entry, an entry with no description, and
another well-formed entry aborts with `AttributeError` — processing does
not continue to the next item, window or channel, and nothing is handed
to the document writer. -/
theorem bt_error_aborts_counterexample :
    mainRun btEnvC7 [chC7] = .error .attributeError := by decide

/-- Claim C7, amended: an error raised while processing a single item is
NOT contained: in a BT window whose earlier entries all process cleanly,
one entry with a missing description makes the whole entry loop — and
with it the run — fail with `AttributeError`; the remaining entries are
never reached.  (Only a non-2xx window fetch and an unparseable Freeview
detail body are tolerated, as `continue`.) -/
theorem bt_item_error_aborts_run (chName : String) (pre rest : List BtEntry)
    (e : BtEntry)
    (hpre : ∀ p ∈ pre, ∃ v, btProcEntry chName p = .ok v)
    (he : e.description = none) :
    btProcEntries chName (pre ++ e :: rest) = .error .attributeError := by
  induction pre with
  | nil =>
    simp only [List.nil_append, btProcEntries]
    rw [bt_missing_description_errors chName e he]
  | cons p ps ih =>
    obtain ⟨v, hv⟩ := hpre p (List.mem_cons_self p ps)
    have ih2 := ih (fun q hq => hpre q (List.mem_cons_of_mem p hq))
    simp only [List.cons_append, btProcEntries, List.append_eq, hv, ih2]

/-- Claim C7, witness for the amended theorem at the concrete entries. -/
theorem bt_item_error_aborts_run_witness :
    btBadEntry.description = none ∧
    btProcEntries "BTCH" ([btGoodEntry] ++ btBadEntry :: [btGoodEntry2]) =
      .error .attributeError := by
  refine ⟨rfl, bt_item_error_aborts_run "BTCH" [btGoodEntry] [btGoodEntry2] btBadEntry ?_ rfl⟩
  intro p hp
  rcases List.mem_singleton.mp hp with rfl
  exact ⟨⟨"T1", some "D1", 1705320000000000, 1705323600000000, none, "BTCH"⟩, by decide⟩

/-- Every programme of a Sky window carries the channel's id. -/
theorem skyWindow_channel (env : Env) (ch : Channel) (ep : Int) (p : Programme)
    (hp : p ∈ skyWindow env ch ep) : p.channel = ch.chId := by
  unfold skyWindow at hp
  cases henv : env.skyFetch ch.sid ep with
  | none => rw [henv] at hp; cases hp
  | some items =>
    rw [henv] at hp
    obtain ⟨a, _, rfl⟩ := List.mem_map.mp hp
    rfl

/-- Every programme of the Sky branch carries the channel's id. -/
theorem skyChannelRun_channel (env : Env) (ch : Channel) (p : Programme)
    (hp : p ∈ skyChannelRun env ch) : p.channel = ch.chId := by
  unfold skyChannelRun at hp
  obtain ⟨l, hl, hpl⟩ := List.mem_flatten.mp hp
  obtain ⟨ep, _, rfl⟩ := List.mem_map.mp hl
  exact skyWindow_channel env ch ep p hpl

/-- A successfully processed BT entry carries the given channel id. -/
theorem btProcEntry_channel (chName : String) (e : BtEntry) (p : Programme)
    (h : btProcEntry chName e = .ok p) : p.channel = chName := by
  unfold btProcEntry at h
  cases ht : e.title with
  | none => rw [ht] at h; cases h
  | some t =>
    rw [ht] at h
    cases hd : e.description with
    | none => rw [hd] at h; cases h
    | some d => rw [hd] at h; cases h; rfl

/-- Every programme of a processed BT entry list carries the channel id. -/
theorem btProcEntries_channel (chName : String) :
    ∀ (es : List BtEntry) (l : List Programme), btProcEntries chName es = .ok l →
      ∀ p ∈ l, p.channel = chName := by
  intro es
  induction es with
  | nil => intro l h p hp; cases h; cases hp
  | cons e rest ih =>
    intro l h p hp
    unfold btProcEntries at h
    cases he : btProcEntry chName e with
    | error err => rw [he] at h; cases h
    | ok q =>
      rw [he] at h
      cases hr : btProcEntries chName rest with
      | error err => rw [hr] at h; cases h
      | ok ps =>
        rw [hr] at h
        cases h
        rcases List.mem_cons.mp hp with rfl | hp2
        · exact btProcEntry_channel chName e p he
        · exact ih ps hr p hp2

/-- Every programme of the BT branch carries the channel's id. -/
theorem btWindows_channel (env : Env) (ch : Channel) :
    ∀ (ts : List Int) (l : List Programme), btWindows env ch ts = .ok l →
      ∀ p ∈ l, p.channel = ch.chId := by
  intro ts
  induction ts with
  | nil => intro l h p hp; cases h; cases hp
  | cons t rest ih =>
    intro l h p hp
    unfold btWindows at h
    cases hw : btWindow env ch t with
    | error err => rw [hw] at h; cases h
    | ok l1 =>
      rw [hw] at h
      cases hr : btWindows env ch rest with
      | error err => rw [hr] at h; cases h
      | ok l2 =>
        rw [hr] at h
        cases h
        rcases List.mem_append.mp hp with hp1 | hp2
        · unfold btWindow at hw
          cases henv : env.btFetch ch.sid t with
          | none => rw [henv] at hw; cases hw; cases hp1
          | some entries =>
            rw [henv] at hw
            exact btProcEntries_channel ch.chId entries l1 hw p hp1
        · exact ih l2 hr p hp2

/-- Every programme of a BBC page carries the channel's id. -/
theorem bbcWindows_channel (env : Env) (ch : Channel) :
    ∀ (ds : List Nat) (l : List Programme), bbcWindows env ch ds = .ok l →
      ∀ p ∈ l, p.channel = ch.chId := by
  intro ds
  induction ds with
  | nil => intro l h p hp; cases h; cases hp
  | cons d rest ih =>
    intro l h p hp
    unfold bbcWindows at h
    cases hw : bbcWindow env ch d with
    | error err => rw [hw] at h; cases h
    | ok l1 =>
      rw [hw] at h
      cases hr : bbcWindows env ch rest with
      | error err => rw [hr] at h; cases h
      | ok l2 =>
        rw [hr] at h
        cases h
        rcases List.mem_append.mp hp with hp1 | hp2
        · unfold bbcWindow at hw
          split at hw
          · cases hw; cases hp1
          · split at hw
            · cases hw
            · cases hw
              obtain ⟨q, _, rfl⟩ := List.mem_map.mp hp1
              rfl
        · exact ih l2 hr p hp2

/-- A Freeview event that yields a programme carries the channel id. -/
theorem fvListingProc_channel (detail : String → Except Unit FvRes)
    (chName : String) (l : FvListing) (p : Programme)
    (h : fvListingProc detail chName l = .ok (some p)) : p.channel = chName := by
  unfold fvListingProc at h
  split at h
  · cases h
  · split at h
    · cases h
    · split at h
      · cases h
      · cases h
      · cases h; rfl

/-- Every programme of a Freeview event list carries the channel id. -/
theorem fvEvents_channel (detail : String → Except Unit FvRes) (chName : String) :
    ∀ (ls : List FvListing) (l : List Programme), fvEvents detail chName ls = .ok l →
      ∀ p ∈ l, p.channel = chName := by
  intro ls
  induction ls with
  | nil => intro l h p hp; cases h; cases hp
  | cons x rest ih =>
    intro l h p hp
    unfold fvEvents at h
    cases hx : fvListingProc detail chName x with
    | error err => rw [hx] at h; cases h
    | ok po =>
      rw [hx] at h
      cases hr : fvEvents detail chName rest with
      | error err => rw [hr] at h; cases h
      | ok ps =>
        rw [hr] at h
        cases h
        rcases List.mem_append.mp hp with hp1 | hp2
        · cases po with
          | none => cases hp1
          | some q =>
            rcases List.mem_singleton.mp hp1 with rfl
            exact fvListingProc_channel detail chName x p hx
        · exact ih ps hr p hp2

/-- Every programme of a Freeview record list carries the channel id. -/
theorem fvPrograms_channel (detail : String → Except Unit FvRes) (chName : String) :
    ∀ (recs : List FvProgram) (l : List Programme), fvPrograms detail chName recs = .ok l →
      ∀ p ∈ l, p.channel = chName := by
  intro recs
  induction recs with
  | nil => intro l h p hp; cases h; cases hp
  | cons r rest ih =>
    intro l h p hp
    unfold fvPrograms at h
    cases hx : fvEvents detail chName r.events with
    | error err => rw [hx] at h; cases h
    | ok l1 =>
      rw [hx] at h
      cases hr : fvPrograms detail chName rest with
      | error err => rw [hr] at h; cases h
      | ok l2 =>
        rw [hr] at h
        cases h
        rcases List.mem_append.mp hp with hp1 | hp2
        · exact fvEvents_channel detail chName r.events l1 hx p hp1
        · exact ih l2 hr p hp2

/-- Every programme of the post-loop Freeview block carries the channel
id of the channel it ran against. -/
theorem fvWindows_channel (env : Env) (ch : Channel) :
    ∀ (eps : List Int) (l : List Programme), fvWindows env ch eps = .ok l →
      ∀ p ∈ l, p.channel = ch.chId := by
  intro eps
  induction eps with
  | nil => intro l h p hp; cases h; cases hp
  | cons ep rest ih =>
    intro l h p hp
    unfold fvWindows at h
    cases hw : fvWindow env ch ep with
    | error err => rw [hw] at h; cases h
    | ok l1 =>
      rw [hw] at h
      cases hr : fvWindows env ch rest with
      | error err => rw [hr] at h; cases h
      | ok l2 =>
        rw [hr] at h
        cases h
        rcases List.mem_append.mp hp with hp1 | hp2
        · unfold fvWindow at hw
          cases henv : env.fvFetch ch.nid ep with
          | none => rw [henv] at hw; cases hw; cases hp1
          | some programs =>
            rw [henv] at hw
            exact fvPrograms_channel env.fvDetail ch.chId _ l1 hw p hp1
        · exact ih l2 hr p hp2

/-- Every programme produced by one loop iteration carries that
channel's id. -/
theorem channelLoopBody_channel (env : Env) (ch : Channel) (l : List Programme)
    (h : channelLoopBody env ch = .ok l) : ∀ p ∈ l, p.channel = ch.chId := by
  unfold channelLoopBody at h
  cases hbt : (if ch.src = "bt" then btChannelRun env ch else .ok []) with
  | error e => rw [hbt] at h; cases h
  | ok btPart =>
    rw [hbt] at h
    cases hbbc : (if ch.src = "bbc_radio" then bbcChannelRun env ch else .ok []) with
    | error e => rw [hbbc] at h; cases h
    | ok bbcPart =>
      rw [hbbc] at h
      cases h
      intro p hp
      rcases List.mem_append.mp hp with hp0 | hp2
      · rcases List.mem_append.mp hp0 with hp1 | hp1
        · by_cases hs : ch.src = "sky"
          · rw [if_pos hs] at hp1; exact skyChannelRun_channel env ch p hp1
          · rw [if_neg hs] at hp1; cases hp1
        · by_cases hs : ch.src = "bt"
          · rw [if_pos hs] at hbt
            exact btWindows_channel env ch env.btDays btPart hbt p hp1
          · rw [if_neg hs] at hbt; cases hbt; cases hp1
      · by_cases hs : ch.src = "bbc_radio"
        · rw [if_pos hs] at hbbc
          exact bbcWindows_channel env ch env.bbcDays bbcPart hbbc p hp2
        · rw [if_neg hs] at hbbc; cases hbbc; cases hp2

/-- A freeview-sourced channel contributes nothing inside the loop:
all three in-loop source tests fail. -/
theorem channelLoopBody_freeview (env : Env) (ch : Channel)
    (h : ch.src = "freeview") : channelLoopBody env ch = .ok [] := by
  unfold channelLoopBody
  rw [h]
  simp

/-- Every programme collected by the channel loop comes from the loop
body of some member channel. -/
theorem mainLoop_mem (env : Env) :
    ∀ (channels : List Channel) (L : List Programme), mainLoop env channels = .ok L →
      ∀ p ∈ L, ∃ ch ∈ channels, ∃ l, channelLoopBody env ch = .ok l ∧ p ∈ l := by
  intro channels
  induction channels with
  | nil => intro L h p hp; cases h; cases hp
  | cons ch rest ih =>
    intro L h p hp
    unfold mainLoop at h
    cases hb : channelLoopBody env ch with
    | error e => rw [hb] at h; cases h
    | ok l1 =>
      rw [hb] at h
      cases hr : mainLoop env rest with
      | error e => rw [hr] at h; cases h
      | ok l2 =>
        rw [hr] at h
        cases h
        rcases List.mem_append.mp hp with hp1 | hp2
        · exact ⟨ch, List.mem_cons_self ch rest, l1, hb, hp1⟩
        · obtain ⟨ch2, hm, l, hbody, hpl⟩ := ih l2 hr p hp2
          exact ⟨ch2, List.mem_cons_of_mem ch hm, l, hbody, hpl⟩

/-- Claim C9: the freeview test (main.py line 291) is dedented out of
the channel loop, so it is evaluated once, after the loop, against the
loop variable's final value — the last channel record.  Consequently a
freeview channel that is not the last record (whose xmltv id is not
shared by another record) receives no programme candidates at all: the
in-loop source tests all fail for it, and the post-loop freeview block
runs against the last record only. -/
theorem freeview_branch_only_last_channel (env : Env) (channels : List Channel)
    (i : Nat) (hi : i < channels.length)
    (hsrc : (channels.get ⟨i, hi⟩).src = "freeview")
    (hlast : i + 1 < channels.length)
    (hnodup : (channels.map Channel.chId).Nodup)
    (ps : List Programme) (h : mainRun env channels = .ok ps) :
    ∀ p ∈ ps, p.channel ≠ (channels.get ⟨i, hi⟩).chId := by
  intro p hp heq
  unfold mainRun at h
  cases hL : mainLoop env channels with
  | error e => rw [hL] at h; cases h
  | ok L =>
    simp only [hL] at h
    cases hlq : channels.getLast? with
    | none => simp only [hlq] at h; cases h
    | some last =>
      simp only [hlq] at h
      have hlen : channels.length - 1 < channels.length := by omega
      have hlast_get : last = channels.get ⟨channels.length - 1, hlen⟩ := by
        have h1 := List.getLast?_eq_get? channels
        rw [hlq, List.get?_eq_get hlen] at h1
        injection h1
      have hloop : ∀ q, q ∈ L → q.channel = (channels.get ⟨i, hi⟩).chId → False := by
        intro q hq hqe
        obtain ⟨ch2, hm, l, hbody, hpl⟩ := mainLoop_mem env channels L hL q hq
        have hchan := channelLoopBody_channel env ch2 l hbody q hpl
        have hcheq : ch2.chId = (channels.get ⟨i, hi⟩).chId := by rw [← hchan, hqe]
        have hceq : ch2 = channels.get ⟨i, hi⟩ :=
          List.inj_on_of_nodup_map hnodup hm (channels.get_mem i hi) hcheq
        rw [hceq, channelLoopBody_freeview env _ hsrc] at hbody
        cases hbody
        cases hpl
      have hne : last.chId ≠ (channels.get ⟨i, hi⟩).chId := by
        intro hcontra
        have hmaplen : channels.length - 1 < (channels.map Channel.chId).length := by
          simp [hlen]
        have hmapi : i < (channels.map Channel.chId).length := by simp [hi]
        have hm1 : (channels.map Channel.chId).get ⟨i, hmapi⟩ =
            (channels.get ⟨i, hi⟩).chId := by simp [List.get_map]
        have hm2 : (channels.map Channel.chId).get ⟨channels.length - 1, hmaplen⟩ =
            last.chId := by rw [hlast_get]; simp [List.get_map]
        have hfin := hnodup.get_inj_iff.mp (hm2.trans (hcontra.trans hm1.symm))
        have hval : channels.length - 1 = i := congrArg Fin.val hfin
        omega
      by_cases hfv : last.src = "freeview"
      · rw [if_pos hfv] at h
        cases hfr : fvRun env last with
        | error e => rw [hfr] at h; cases h
        | ok l2 =>
          rw [hfr] at h
          cases h
          rcases List.mem_append.mp hp with hp1 | hp2
          · exact hloop p hp1 heq
          · exact hne (by
              rw [← fvWindows_channel env last env.fvDays l2 hfr p hp2, heq])
      · rw [if_neg hfv] at h
        cases h
        exact hloop p hp heq

/-- Claim C9, witness: the concrete registry whose freeview channel is
first of two; the run yields only the Sky channel's programme and none
for the freeview channel's id. -/
theorem freeview_branch_only_last_channel_witness :
    (channelsC9.get ⟨0, by decide⟩).src = "freeview" ∧
    0 + 1 < channelsC9.length ∧
    (channelsC9.map Channel.chId).Nodup ∧
    mainRun envC9 channelsC9 = .ok [⟨"S", none, 7000000, 67000000, none, "SK2"⟩] ∧
    ∀ p ∈ [(⟨"S", none, 7000000, 67000000, none, "SK2"⟩ : Programme)],
      p.channel ≠ (channelsC9.get ⟨0, by decide⟩).chId :=
  ⟨by decide, by decide, by decide, by decide,
    freeview_branch_only_last_channel envC9 channelsC9 0 (by decide) (by decide)
      (by decide) (by decide) _ (by decide)⟩

/-- The lookahead ignores the loop-carried value except when it falls off
the last item of the last section. -/
theorem lookahead_stale_indep (rest : List RadioItem) (nextSec : Option RadioSection)
    (stale : Option Nat) (h : rest ≠ [] ∨ nextSec ≠ none) :
    lookahead rest nextSec stale = lookahead rest nextSec none := by
  cases rest with
  | cons nxt tl => rfl
  | nil =>
    cases nextSec with
    | some sec => rfl
    | none => rcases h with h | h <;> exact absurd rfl h

/-- At the last item of the last section the item is never appended:
either a cutoff dropped it or the `s_idx == 4` skip fires. -/
theorem procItem_lastlate_po (d : Nat) (label : String) (fullLen : Nat)
    (it : RadioItem) (stale st1 : Option Nat) (po : Option BbcProg)
    (h : procItem d 4 label fullLen none it [] stale = .ok (st1, po)) : po = none := by
  unfold procItem at h
  simp only [show lookahead [] none stale = .ok stale from rfl] at h
  simp at h
  exact h.2.symm

/-- The emission function agrees: nothing is emitted at the last item of
the last section. -/
theorem emitAt_lastlate (d : Nat) (label : String) (fullLen : Nat) (it : RadioItem) :
    emitAt d ⟨4, label, fullLen, none, it, []⟩ = none := by
  unfold emitAt
  cases hp : procItem d 4 label fullLen none it [] none with
  | error e => rfl
  | ok pr =>
    obtain ⟨st, po⟩ := pr
    simp only []
    exact procItem_lastlate_po d label fullLen it none st po hp

/-- Whatever `next_start` value the loop carries, the programme appended
for an item equals the stale-free emission at its position, provided a
missing next section can only happen at section index 4 (true of the
standard five-section page). -/
theorem procItem_emitAt (d sIdx : Nat) (label : String) (fullLen : Nat)
    (nextSec : Option RadioSection) (it : RadioItem) (rest : List RadioItem)
    (stale st1 : Option Nat) (po : Option BbcProg)
    (hns : nextSec = none → sIdx = 4)
    (h : procItem d sIdx label fullLen nextSec it rest stale = .ok (st1, po)) :
    po = emitAt d ⟨sIdx, label, fullLen, nextSec, it, rest⟩ := by
  by_cases hstale : rest = [] ∧ nextSec = none
  · obtain ⟨hrest, hnsec⟩ := hstale
    have h4 : sIdx = 4 := hns hnsec
    subst h4; subst hrest; subst hnsec
    rw [emitAt_lastlate]
    exact procItem_lastlate_po d label fullLen it stale st1 po h
  · have hlook : lookahead rest nextSec stale = lookahead rest nextSec none := by
      apply lookahead_stale_indep
      by_cases hr : rest = []
      · right; intro hn; exact hstale ⟨hr, hn⟩
      · left; exact hr
    unfold emitAt
    unfold procItem at h ⊢
    by_cases h1 : label = "early" ∧ 420 ≤ (it.airTime : Nat)
    · simp only [if_pos h1] at h ⊢; cases h; rfl
    · simp only [if_neg h1] at h ⊢
      by_cases h2 : label = "late" ∧ 30 < (it.airTime : Nat)
      · simp only [if_pos h2] at h ⊢; cases h; rfl
      · simp only [if_neg h2] at h ⊢
        cases hlk : lookahead rest nextSec none with
        | error e => rw [hlook, hlk] at h; cases h
        | ok nsOpt =>
          rw [hlook] at h
          simp only [hlk] at h ⊢
          by_cases h3 : sIdx = 3 ∧ rest = []
          · simp only [if_pos h3] at h ⊢
            cases nsOpt with
            | none => cases h
            | some ns => cases h; rfl
          · simp only [if_neg h3] at h ⊢
            by_cases h4 : sIdx = 4
            · simp only [if_pos h4] at h ⊢
              by_cases h5 : fullLen = 1 ∨ rest = []
              · simp only [if_pos h5] at h ⊢; cases h; rfl
              · simp only [if_neg h5] at h ⊢
                cases nsOpt with
                | none => cases h
                | some ns => cases h; rfl
            · simp only [if_neg h4] at h ⊢
              cases nsOpt with
              | none => cases h
              | some ns => cases h; rfl

/-- The inner item loop appends exactly the stale-free emissions of its
positions, in order. -/
theorem procItems_filterMap (d sIdx : Nat) (label : String) (fullLen : Nat)
    (nextSec : Option RadioSection) (hns : nextSec = none → sIdx = 4) :
    ∀ (rem : List RadioItem) (stale st2 : Option Nat) (ps : List BbcProg),
      procItems d sIdx label fullLen nextSec rem stale = .ok (st2, ps) →
      ps = (goItems sIdx label fullLen nextSec rem).filterMap (emitAt d) := by
  intro rem
  induction rem with
  | nil => intro stale st2 ps h; cases h; rfl
  | cons it rest ih =>
    intro stale st2 ps h
    unfold procItems at h
    cases hpi : procItem d sIdx label fullLen nextSec it rest stale with
    | error e => rw [hpi] at h; cases h
    | ok pr =>
      obtain ⟨stA, po⟩ := pr
      simp only [hpi] at h
      cases hrec : procItems d sIdx label fullLen nextSec rest stA with
      | error e => rw [hrec] at h; cases h
      | ok pr2 =>
        obtain ⟨stB, ps2⟩ := pr2
        simp only [hrec] at h
        have hpo := procItem_emitAt d sIdx label fullLen nextSec it rest stale stA po hns hpi
        have hrest := ih stA stB ps2 hrec
        cases h
        rw [goItems, List.filterMap_cons, ← hpo, hrest]
        cases po <;> rfl

/-- Entries of one section's flat list carry that section's context. -/
theorem goItems_mem_fields (sIdx : Nat) (label : String) (fullLen : Nat)
    (nextSec : Option RadioSection) :
    ∀ (items : List RadioItem) (en : FlatEntry),
      en ∈ goItems sIdx label fullLen nextSec items →
      en.sIdx = sIdx ∧ en.label = label ∧ en.fullLen = fullLen ∧ en.nextSec = nextSec := by
  intro items
  induction items with
  | nil => intro en h; cases h
  | cons it rest ih =>
    intro en h
    rw [goItems] at h
    rcases List.mem_cons.mp h with rfl | h2
    · exact ⟨rfl, rfl, rfl, rfl⟩
    · exact ih en h2

/-- If the item loop finishes without an uncaught exception, every one of
its positions was processed successfully with some carried value. -/
theorem procItems_entries_ok (d sIdx : Nat) (label : String) (fullLen : Nat)
    (nextSec : Option RadioSection) :
    ∀ (rem : List RadioItem) (stale st2 : Option Nat) (ps : List BbcProg),
      procItems d sIdx label fullLen nextSec rem stale = .ok (st2, ps) →
      ∀ en ∈ goItems sIdx label fullLen nextSec rem,
        ∃ s1 s2 po, procItem d en.sIdx en.label en.fullLen en.nextSec en.item en.rest s1 = .ok (s2, po) := by
  intro rem
  induction rem with
  | nil => intro stale st2 ps h en hen; cases hen
  | cons it rest ih =>
    intro stale st2 ps h en hen
    unfold procItems at h
    cases hpi : procItem d sIdx label fullLen nextSec it rest stale with
    | error e => rw [hpi] at h; cases h
    | ok pr =>
      obtain ⟨stA, po⟩ := pr
      simp only [hpi] at h
      cases hrec : procItems d sIdx label fullLen nextSec rest stA with
      | error e => rw [hrec] at h; cases h
      | ok pr2 =>
        obtain ⟨stB, ps2⟩ := pr2
        simp only [hrec] at h
        rw [goItems] at hen
        rcases List.mem_cons.mp hen with rfl | h2
        · exact ⟨stale, stA, po, hpi⟩
        · exact ih stA stB ps2 hrec en h2

/-- Inversion of a successful run over a standard five-section page: the
emitted list is the ordered stale-free emission of every flat position,
and every position was processed without an exception. -/
theorem bbcDay_std_inv (d : Nat) (e m a v l : List RadioItem) (ps : List BbcProg)
    (h : bbcDay d (stdPage e m a v l) = .ok ps) :
    ps = (flatEntries (stdPage e m a v l)).filterMap (emitAt d) ∧
    ∀ en ∈ flatEntries (stdPage e m a v l), ∃ s1 s2 po,
      procItem d en.sIdx en.label en.fullLen en.nextSec en.item en.rest s1 = .ok (s2, po) := by
  unfold bbcDay stdPage at h
  norm_num [procSecs, List.head?_cons, List.head?_nil] at h
  cases h0 : procItems d 0 "early" e.length (some ⟨"morning", m⟩) e none with
  | error e0 => simp only [h0] at h; cases h
  | ok pr0 =>
    obtain ⟨st0, ps0⟩ := pr0
    simp only [h0] at h
    cases h1 : procItems d 1 "morning" m.length (some ⟨"afternoon", a⟩) m st0 with
    | error e1 => simp only [h1] at h; cases h
    | ok pr1 =>
      obtain ⟨st1, ps1⟩ := pr1
      simp only [h1] at h
      cases h2 : procItems d 2 "afternoon" a.length (some ⟨"evening", v⟩) a st1 with
      | error e2 => simp only [h2] at h; cases h
      | ok pr2 =>
        obtain ⟨st2, ps2⟩ := pr2
        simp only [h2] at h
        cases h3 : procItems d 3 "evening" v.length (some ⟨"late", l⟩) v st2 with
        | error e3 => simp only [h3] at h; cases h
        | ok pr3 =>
          obtain ⟨st3, ps3⟩ := pr3
          simp only [h3] at h
          cases h4 : procItems d 4 "late" l.length none l st3 with
          | error e4 => simp only [h4] at h; cases h
          | ok pr4 =>
            obtain ⟨st4, ps4⟩ := pr4
            simp only [h4] at h
            have he := procItems_filterMap d 0 "early" e.length (some ⟨"morning", m⟩)
              (fun hc => Option.noConfusion hc) e none st0 ps0 h0
            have hm := procItems_filterMap d 1 "morning" m.length (some ⟨"afternoon", a⟩)
              (fun hc => Option.noConfusion hc) m st0 st1 ps1 h1
            have ha := procItems_filterMap d 2 "afternoon" a.length (some ⟨"evening", v⟩)
              (fun hc => Option.noConfusion hc) a st1 st2 ps2 h2
            have hv := procItems_filterMap d 3 "evening" v.length (some ⟨"late", l⟩)
              (fun hc => Option.noConfusion hc) v st2 st3 ps3 h3
            have hl := procItems_filterMap d 4 "late" l.length none
              (fun _ => rfl) l st3 st4 ps4 h4
            have hoe := procItems_entries_ok d 0 "early" e.length (some ⟨"morning", m⟩)
              e none st0 ps0 h0
            have hom := procItems_entries_ok d 1 "morning" m.length (some ⟨"afternoon", a⟩)
              m st0 st1 ps1 h1
            have hoa := procItems_entries_ok d 2 "afternoon" a.length (some ⟨"evening", v⟩)
              a st1 st2 ps2 h2
            have hov := procItems_entries_ok d 3 "evening" v.length (some ⟨"late", l⟩)
              v st2 st3 ps3 h3
            have hol := procItems_entries_ok d 4 "late" l.length none
              l st3 st4 ps4 h4
            injection h with hps
            constructor
            · rw [← hps]
              norm_num [flatEntries, stdPage, goSecs, sectionEntries, List.head?_cons,
                List.head?_nil, List.filterMap_append]
              rw [he, hm, ha, hv, hl]
            · intro en hen
              norm_num [flatEntries, stdPage, goSecs, sectionEntries, List.head?_cons,
                List.head?_nil, List.mem_append] at hen
              rcases hen with hen | hen | hen | hen | hen
              · exact hoe en hen
              · exact hom en hen
              · exact hoa en hen
              · exact hov en hen
              · exact hol en hen

/-- `datetime.combine(date, time).date()` recovers the date: dividing
`day * 1440 + minutes` by 1440 gives the day back. -/
theorem combine_div (d : Nat) (a : Fin 1440) : (d * 1440 + (a : Nat)) / 1440 = d := by
  rw [Nat.add_comm, Nat.add_mul_div_right _ _ (by norm_num : 0 < 1440),
    Nat.div_eq_of_lt a.isLt, Nat.zero_add]

/-- Inversion of an item that appends a programme: the lookahead supplied
a next-start value `ns`, and start/stop follow one of the three
stop-assignment branches (last-of-evening rollover, late-section shift,
or the plain same-day bound). -/
theorem procItem_emits (d sIdx : Nat) (label : String) (fullLen : Nat)
    (nextSec : Option RadioSection) (it : RadioItem) (rest : List RadioItem)
    (stale st : Option Nat) (A : BbcProg)
    (h : procItem d sIdx label fullLen nextSec it rest stale = .ok (st, some A)) :
    ∃ ns, lookahead rest nextSec stale = .ok (some ns) ∧
      ((sIdx = 3 ∧ rest = [] ∧ A.start = d * 1440 + (it.airTime : Nat) ∧
          A.stop = (d + 1) * 1440 + ns) ∨
       (sIdx = 4 ∧ ¬(fullLen = 1 ∨ rest = []) ∧
          A.start = (d + 1) * 1440 + (it.airTime : Nat) ∧
          A.stop = (d + 1) * 1440 + ns) ∨
       (¬(sIdx = 3 ∧ rest = []) ∧ sIdx ≠ 4 ∧
          A.start = d * 1440 + (it.airTime : Nat) ∧ A.stop = d * 1440 + ns)) := by
  unfold procItem at h
  by_cases h1 : label = "early" ∧ 420 ≤ (it.airTime : Nat)
  · simp only [if_pos h1] at h; cases h
  · simp only [if_neg h1] at h
    by_cases h2 : label = "late" ∧ 30 < (it.airTime : Nat)
    · simp only [if_pos h2] at h; cases h
    · simp only [if_neg h2] at h
      cases hlk : lookahead rest nextSec stale with
      | error e => rw [hlk] at h; cases h
      | ok nsOpt =>
        simp only [hlk] at h
        by_cases h3 : sIdx = 3 ∧ rest = []
        · simp only [if_pos h3] at h
          cases nsOpt with
          | none => cases h
          | some ns =>
            cases h
            exact ⟨ns, rfl, Or.inl ⟨h3.1, h3.2, rfl, by
              simp only [combine_div d it.airTime]⟩⟩
        · simp only [if_neg h3] at h
          by_cases h4 : sIdx = 4
          · simp only [if_pos h4] at h
            by_cases h5 : fullLen = 1 ∨ rest = []
            · simp only [if_pos h5] at h; cases h
            · simp only [if_neg h5] at h
              cases nsOpt with
              | none => cases h
              | some ns =>
                cases h
                refine ⟨ns, rfl, Or.inr (Or.inl ⟨h4, h5, ?_, ?_⟩)⟩
                · simp only [combine_div d it.airTime]
                · simp only [combine_div d it.airTime]
                  rw [show (d + 1) * 1440 + (it.airTime : Nat) = d * 1440 + 1440 + (it.airTime : Nat) by ring]
                  rw [show d * 1440 + 1440 + (it.airTime : Nat) = (d + 1) * 1440 + (it.airTime : Nat) by ring]
                  rw [combine_div (d + 1) it.airTime]
          · simp only [if_neg h4] at h
            cases nsOpt with
            | none => cases h
            | some ns =>
              cases h
              exact ⟨ns, rfl, Or.inr (Or.inr ⟨h3, h4, rfl, by
                simp only [combine_div d it.airTime]⟩)⟩

/-- Adjacent positions inside one section are contiguous: the first
item's stop is computed from the second item's air time exactly as the
second item's start is. -/
theorem contig_within (d sIdx : Nat) (label : String) (fullLen : Nat)
    (nextSec : Option RadioSection) (it x : RadioItem) (r : List RadioItem) :
    Contig d ⟨sIdx, label, fullLen, nextSec, it, x :: r⟩ ⟨sIdx, label, fullLen, nextSec, x, r⟩ := by
  intro A B hA hB
  unfold emitAt at hA hB
  cases hpA : procItem d sIdx label fullLen nextSec it (x :: r) none with
  | error eA => rw [hpA] at hA; cases hA
  | ok prA =>
    obtain ⟨stA, poA⟩ := prA
    simp only [hpA] at hA
    subst hA
    cases hpB : procItem d sIdx label fullLen nextSec x r none with
    | error eB => rw [hpB] at hB; cases hB
    | ok prB =>
      obtain ⟨stB, poB⟩ := prB
      simp only [hpB] at hB
      subst hB
      obtain ⟨nsA, hlkA, hcA⟩ := procItem_emits d sIdx label fullLen nextSec it (x :: r) none stA A hpA
      obtain ⟨nsB, hlkB, hcB⟩ := procItem_emits d sIdx label fullLen nextSec x r none stB B hpB
      have hnsA : nsA = (x.airTime : Nat) := by
        rw [show lookahead (x :: r) nextSec none = .ok (some (x.airTime : Nat)) from rfl] at hlkA
        injection hlkA with hh
        injection hh with hv
        exact hv.symm
      subst hnsA
      rcases hcA with ⟨_, hfalse, _⟩ | ⟨h4, _, _, hstopA⟩ | ⟨_, hn4, _, hstopA⟩
      · cases hfalse
      · rcases hcB with ⟨h3B, _⟩ | ⟨_, _, hstartB, _⟩ | ⟨_, hn4B, _, _⟩
        · omega
        · rw [hstopA, hstartB]
        · exact absurd h4 hn4B
      · rcases hcB with ⟨h3B, _, hstartB, _⟩ | ⟨h4B, _⟩ | ⟨_, _, hstartB, _⟩
        · rw [hstopA, hstartB]
        · exact absurd h4B hn4
        · rw [hstopA, hstartB]

/-- The last position of a section and the first position of the next
section are contiguous. -/
theorem contig_cross (d s : Nat) (label lb2 : String) (fullLen len2 : Nat)
    (x it : RadioItem) (its2 : List RadioItem) (next2 : Option RadioSection) :
    Contig d ⟨s, label, fullLen, some ⟨lb2, x :: its2⟩, it, []⟩
             ⟨s + 1, lb2, len2, next2, x, its2⟩ := by
  intro A B hA hB
  unfold emitAt at hA hB
  cases hpA : procItem d s label fullLen (some ⟨lb2, x :: its2⟩) it [] none with
  | error eA => rw [hpA] at hA; cases hA
  | ok prA =>
    obtain ⟨stA, poA⟩ := prA
    simp only [hpA] at hA
    subst hA
    cases hpB : procItem d (s + 1) lb2 len2 next2 x its2 none with
    | error eB => rw [hpB] at hB; cases hB
    | ok prB =>
      obtain ⟨stB, poB⟩ := prB
      simp only [hpB] at hB
      subst hB
      obtain ⟨nsA, hlkA, hcA⟩ :=
        procItem_emits d s label fullLen (some ⟨lb2, x :: its2⟩) it [] none stA A hpA
      obtain ⟨nsB, hlkB, hcB⟩ :=
        procItem_emits d (s + 1) lb2 len2 next2 x its2 none stB B hpB
      have hnsA : nsA = (x.airTime : Nat) := by
        rw [show lookahead [] (some ⟨lb2, x :: its2⟩) none = .ok (some (x.airTime : Nat)) from rfl] at hlkA
        injection hlkA with hh
        injection hh with hv
        exact hv.symm
      subst hnsA
      rcases hcA with ⟨h3, _, _, hstopA⟩ | ⟨_, hskip, _, _⟩ | ⟨hn3, hn4, _, hstopA⟩
      · -- A is the last item of section 3; B sits at section index 4
        subst h3
        rcases hcB with ⟨h3B, _⟩ | ⟨_, _, hstartB, _⟩ | ⟨_, hn4B, _, _⟩
        · omega
        · rw [hstopA, hstartB]
        · omega
      · exact absurd (Or.inr rfl) hskip
      · -- A is in a section other than 3 and 4, so B is not at index 4
        have hs3 : s ≠ 3 := fun hc => hn3 ⟨hc, rfl⟩
        rcases hcB with ⟨h3B, _, hstartB, _⟩ | ⟨h4B, _⟩ | ⟨_, _, hstartB, _⟩
        · rw [hstopA, hstartB]
        · omega
        · rw [hstopA, hstartB]

/-- A last-of-section item whose next section has no item blocks emits
nothing (the source would raise `AttributeError` there). -/
theorem emitAt_empty_next (d s : Nat) (label lb2 : String) (fullLen : Nat)
    (it : RadioItem) :
    emitAt d ⟨s, label, fullLen, some ⟨lb2, []⟩, it, []⟩ = none := by
  unfold emitAt
  cases hp : procItem d s label fullLen (some ⟨lb2, []⟩) it [] none with
  | error e => rfl
  | ok pr =>
    obtain ⟨st, po⟩ := pr
    simp only []
    unfold procItem at hp
    by_cases h1 : label = "early" ∧ 420 ≤ (it.airTime : Nat)
    · simp only [if_pos h1] at hp; cases hp; rfl
    · simp only [if_neg h1] at hp
      by_cases h2 : label = "late" ∧ 30 < (it.airTime : Nat)
      · simp only [if_pos h2] at hp; cases hp; rfl
      · simp only [if_neg h2] at hp
        rw [show lookahead [] (some ⟨lb2, []⟩) none = .error .attributeError from rfl] at hp
        cases hp

/-- Contiguity holds along one section's flat entries. -/
theorem chain_goItems (d sIdx : Nat) (label : String) (fullLen : Nat)
    (nextSec : Option RadioSection) :
    ∀ items : List RadioItem,
      List.Chain' (Contig d) (goItems sIdx label fullLen nextSec items) := by
  intro items
  induction items with
  | nil => exact List.chain'_nil
  | cons it rest ih =>
    cases rest with
    | nil => exact List.chain'_singleton _
    | cons x r =>
      rw [goItems]
      rw [show goItems sIdx label fullLen nextSec (x :: r) =
        ⟨sIdx, label, fullLen, nextSec, x, r⟩ :: goItems sIdx label fullLen nextSec r from rfl]
      rw [show goItems sIdx label fullLen nextSec (x :: r) =
        ⟨sIdx, label, fullLen, nextSec, x, r⟩ :: goItems sIdx label fullLen nextSec r from rfl] at ih
      exact List.Chain'.cons (contig_within d sIdx label fullLen nextSec it x r) ih

/-- The last flat entry of a section, when one exists, is its last item
with an empty structural tail. -/
theorem goItems_getLast (sIdx : Nat) (label : String) (fullLen : Nat)
    (nextSec : Option RadioSection) :
    ∀ (items : List RadioItem) (en : FlatEntry),
      en ∈ (goItems sIdx label fullLen nextSec items).getLast? →
      ∃ it, en = ⟨sIdx, label, fullLen, nextSec, it, []⟩ := by
  intro items
  induction items with
  | nil => intro en h; cases h
  | cons it rest ih =>
    intro en h
    cases rest with
    | nil =>
      rw [show goItems sIdx label fullLen nextSec [it] =
        [⟨sIdx, label, fullLen, nextSec, it, []⟩] from rfl] at h
      rw [List.getLast?_singleton] at h
      exact ⟨it, by cases h; rfl⟩
    | cons x r =>
      rw [show goItems sIdx label fullLen nextSec (it :: x :: r) =
        ⟨sIdx, label, fullLen, nextSec, it, x :: r⟩ ::
          goItems sIdx label fullLen nextSec (x :: r) from rfl] at h
      rw [show goItems sIdx label fullLen nextSec (x :: r) =
        ⟨sIdx, label, fullLen, nextSec, x, r⟩ ::
          goItems sIdx label fullLen nextSec r from rfl] at h
      rw [List.getLast?_cons_cons] at h
      exact ih en h

/-- Contiguity holds across a section boundary, for any tail of further
sections. -/
theorem contig_boundary (d s : Nat) (label lb2 : String) (fullLen len2 : Nat)
    (items its2 : List RadioItem) (next2 : Option RadioSection) (Z : List FlatEntry) :
    ∀ x ∈ (goItems s label fullLen (some ⟨lb2, its2⟩) items).getLast?,
      ∀ y ∈ (goItems (s + 1) lb2 len2 next2 its2 ++ Z).head?, Contig d x y := by
  intro x hx y hy
  obtain ⟨itx, rfl⟩ := goItems_getLast s label fullLen (some ⟨lb2, its2⟩) items x hx
  cases its2 with
  | nil =>
    intro A B hA hB
    rw [emitAt_empty_next] at hA
    cases hA
  | cons x0 r2 =>
    rw [show goItems (s + 1) lb2 len2 next2 (x0 :: r2) ++ Z =
      ⟨s + 1, lb2, len2, next2, x0, r2⟩ ::
        (goItems (s + 1) lb2 len2 next2 r2 ++ Z) from rfl, List.head?_cons] at hy
    injection hy with hy
    subst hy
    exact contig_cross d s label lb2 fullLen len2 x0 itx r2 next2

/-- Contiguity holds along every pair of adjacent flat positions of a
standard five-section page, unconditionally: pairs where either side is
dropped, skipped or unresolvable are vacuous. -/
theorem chain_flat_std (d : Nat) (e m a v l : List RadioItem) :
    List.Chain' (Contig d) (flatEntries (stdPage e m a v l)) := by
  show List.Chain' (Contig d)
    (goItems 0 "early" e.length (some ⟨"morning", m⟩) e ++
     (goItems 1 "morning" m.length (some ⟨"afternoon", a⟩) m ++
      (goItems 2 "afternoon" a.length (some ⟨"evening", v⟩) a ++
       (goItems 3 "evening" v.length (some ⟨"late", l⟩) v ++
        (goItems 4 "late" l.length none l ++ [])))))
  refine List.chain'_append.mpr ⟨chain_goItems d 0 "early" e.length (some ⟨"morning", m⟩) e,
    ?_, contig_boundary d 0 "early" "morning" e.length m.length e m (some ⟨"afternoon", a⟩) _⟩
  refine List.chain'_append.mpr ⟨chain_goItems d 1 "morning" m.length (some ⟨"afternoon", a⟩) m,
    ?_, contig_boundary d 1 "morning" "afternoon" m.length a.length m a (some ⟨"evening", v⟩) _⟩
  refine List.chain'_append.mpr ⟨chain_goItems d 2 "afternoon" a.length (some ⟨"evening", v⟩) a,
    ?_, contig_boundary d 2 "afternoon" "evening" a.length v.length a v (some ⟨"late", l⟩) _⟩
  refine List.chain'_append.mpr ⟨chain_goItems d 3 "evening" v.length (some ⟨"late", l⟩) v,
    ?_, contig_boundary d 3 "evening" "late" v.length l.length v l none _⟩
  refine List.chain'_append.mpr ⟨chain_goItems d 4 "late" l.length none l,
    List.chain'_nil, ?_⟩
  intro x hx y hy
  cases hy

/-- An item processed without exception but with no programme appended
was dropped by the early cutoff, the late cutoff, or the last-section
skip. -/
theorem procItem_none_cases (d sIdx : Nat) (label : String) (fullLen : Nat)
    (nextSec : Option RadioSection) (it : RadioItem) (rest : List RadioItem)
    (stale st : Option Nat)
    (h : procItem d sIdx label fullLen nextSec it rest stale = .ok (st, none)) :
    (label = "early" ∧ 420 ≤ (it.airTime : Nat)) ∨
    (label = "late" ∧ 30 < (it.airTime : Nat)) ∨
    (sIdx = 4 ∧ (fullLen = 1 ∨ rest = [])) := by
  unfold procItem at h
  by_cases h1 : label = "early" ∧ 420 ≤ (it.airTime : Nat)
  · exact Or.inl h1
  · simp only [if_neg h1] at h
    by_cases h2 : label = "late" ∧ 30 < (it.airTime : Nat)
    · exact Or.inr (Or.inl h2)
    · simp only [if_neg h2] at h
      cases hlk : lookahead rest nextSec stale with
      | error e => rw [hlk] at h; cases h
      | ok nsOpt =>
        simp only [hlk] at h
        by_cases h3 : sIdx = 3 ∧ rest = []
        · simp only [if_pos h3] at h
          cases nsOpt with
          | none => cases h
          | some ns => cases h
        · simp only [if_neg h3] at h
          by_cases h4 : sIdx = 4
          · simp only [if_pos h4] at h
            by_cases h5 : fullLen = 1 ∨ rest = []
            · exact Or.inr (Or.inr ⟨h4, h5⟩)
            · simp only [if_neg h5] at h
              cases nsOpt with
              | none => cases h
              | some ns => cases h
          · simp only [if_neg h4] at h
            cases nsOpt with
            | none => cases h
            | some ns => cases h

/-- Conversely, every position meeting a cutoff or the last-section skip
emits nothing. -/
theorem emitAt_none_of_skip (d : Nat) (en : FlatEntry)
    (hcond : (en.label = "early" ∧ 420 ≤ (en.item.airTime : Nat)) ∨
      (en.label = "late" ∧ 30 < (en.item.airTime : Nat)) ∨
      (en.sIdx = 4 ∧ (en.fullLen = 1 ∨ en.rest = []))) :
    emitAt d en = none := by
  obtain ⟨s, lb, fl, nsec, it, rest⟩ := en
  unfold emitAt
  cases hp : procItem d s lb fl nsec it rest none with
  | error e => rfl
  | ok pr =>
    obtain ⟨st, po⟩ := pr
    simp only []
    rcases hcond with h1 | h2 | h34
    · unfold procItem at hp
      simp only [if_pos h1] at hp
      cases hp; rfl
    · unfold procItem at hp
      by_cases h1 : lb = "early" ∧ 420 ≤ (it.airTime : Nat)
      · simp only [if_pos h1] at hp; cases hp; rfl
      · simp only [if_neg h1, if_pos h2] at hp; cases hp; rfl
    · obtain ⟨h4, h5⟩ := h34
      subst h4
      unfold procItem at hp
      by_cases h1 : lb = "early" ∧ 420 ≤ (it.airTime : Nat)
      · simp only [if_pos h1] at hp; cases hp; rfl
      · simp only [if_neg h1] at hp
        by_cases h2 : lb = "late" ∧ 30 < (it.airTime : Nat)
        · simp only [if_pos h2] at hp; cases hp; rfl
        · simp only [if_neg h2] at hp
          cases hlk : lookahead rest nsec none with
          | error e => rw [hlk] at hp; cases hp
          | ok nsOpt =>
            simp only [hlk] at hp
            simp only [if_neg (by omega : ¬((4 : Nat) = 3 ∧ rest = [])),
              if_pos (rfl : (4 : Nat) = 4), if_pos h5] at hp
            cases hp; rfl

/-- On a standard five-section page, only section index 4 lacks a next
section. -/
theorem flat_std_hns (e m a v l : List RadioItem) :
    ∀ en ∈ flatEntries (stdPage e m a v l), en.nextSec = none → en.sIdx = 4 := by
  intro en hen
  rw [show flatEntries (stdPage e m a v l) =
    goItems 0 "early" e.length (some ⟨"morning", m⟩) e ++
     (goItems 1 "morning" m.length (some ⟨"afternoon", a⟩) m ++
      (goItems 2 "afternoon" a.length (some ⟨"evening", v⟩) a ++
       (goItems 3 "evening" v.length (some ⟨"late", l⟩) v ++
        (goItems 4 "late" l.length none l ++ [])))) from rfl] at hen
  simp only [List.mem_append, List.mem_nil_iff, or_false] at hen
  rcases hen with hen | hen | hen | hen | hen
  · intro hc
    rw [(goItems_mem_fields 0 "early" e.length (some ⟨"morning", m⟩) e en hen).2.2.2] at hc
    cases hc
  · intro hc
    rw [(goItems_mem_fields 1 "morning" m.length (some ⟨"afternoon", a⟩) m en hen).2.2.2] at hc
    cases hc
  · intro hc
    rw [(goItems_mem_fields 2 "afternoon" a.length (some ⟨"evening", v⟩) a en hen).2.2.2] at hc
    cases hc
  · intro hc
    rw [(goItems_mem_fields 3 "evening" v.length (some ⟨"late", l⟩) v en hen).2.2.2] at hc
    cases hc
  · intro hc
    exact (goItems_mem_fields 4 "late" l.length none l en hen).1

/-- Claim C4: after boundary inference over a standard five-section BBC
page that completes without an uncaught exception, the emitted list is
the position-wise emission of the flattened page, and any two programmes
emitted at ADJACENT flat positions satisfy `A.stop = B.start`; a pair of
consecutive emitted programmes violating this can only arise across an
explicitly dropped or skipped position (which sits between them in the
flattened order), exactly the claim's stated exception. -/
theorem bbc_contiguity (d : Nat) (e m a v l : List RadioItem) (ps : List BbcProg)
    (h : bbcDay d (stdPage e m a v l) = .ok ps) :
    ps = (flatEntries (stdPage e m a v l)).filterMap (emitAt d) ∧
    List.Chain' (Contig d) (flatEntries (stdPage e m a v l)) :=
  ⟨(bbcDay_std_inv d e m a v l ps h).1, chain_flat_std d e m a v l⟩

/-- Claim C4, witness at a concrete page: one item per section plus a
two-item late section; the five emitted programmes are contiguous. -/
theorem bbc_contiguity_witness :
    bbcDay 0 (stdPage bbcE bbcM bbcA bbcV bbcL) =
      .ok [⟨"E", "de", "ie", 360, 480⟩, ⟨"M", "dm", "im", 480, 720⟩,
           ⟨"A", "da", "ia", 720, 1080⟩, ⟨"V", "dv", "iv", 1080, 1450⟩,
           ⟨"L1", "d1", "i1", 1450, 1460⟩] ∧
    ([⟨"E", "de", "ie", 360, 480⟩, ⟨"M", "dm", "im", 480, 720⟩,
      ⟨"A", "da", "ia", 720, 1080⟩, ⟨"V", "dv", "iv", 1080, 1450⟩,
      ⟨"L1", "d1", "i1", 1450, 1460⟩] =
        (flatEntries (stdPage bbcE bbcM bbcA bbcV bbcL)).filterMap (emitAt 0) ∧
     List.Chain' (Contig 0) (flatEntries (stdPage bbcE bbcM bbcA bbcV bbcL))) :=
  ⟨by decide, bbc_contiguity 0 bbcE bbcM bbcA bbcV bbcL _ (by decide)⟩

/-- Claim C5 (amended): on a standard page processed without exception,
a position emits nothing IFF it is an early item at or after 07:00, a
late item strictly after 00:30, OR — additionally to the claim — it sits
in the late section (index 4) and is its last item or that section has
exactly one item.  The third disjunct is what falsifies the claim's
"if and only if". -/
theorem bbc_drop_characterization (d : Nat) (e m a v l : List RadioItem)
    (ps : List BbcProg) (h : bbcDay d (stdPage e m a v l) = .ok ps) :
    ps = (flatEntries (stdPage e m a v l)).filterMap (emitAt d) ∧
    ∀ en ∈ flatEntries (stdPage e m a v l),
      (emitAt d en = none ↔
        (en.label = "early" ∧ 420 ≤ (en.item.airTime : Nat)) ∨
        (en.label = "late" ∧ 30 < (en.item.airTime : Nat)) ∨
        (en.sIdx = 4 ∧ (en.fullLen = 1 ∨ en.rest = []))) := by
  obtain ⟨hfm, hok⟩ := bbcDay_std_inv d e m a v l ps h
  refine ⟨hfm, fun en hen => ⟨?_, emitAt_none_of_skip d en⟩⟩
  intro hnone
  obtain ⟨s1, s2, po, hpi⟩ := hok en hen
  have hns := flat_std_hns e m a v l en hen
  have hpo := procItem_emitAt d en.sIdx en.label en.fullLen en.nextSec en.item en.rest
    s1 s2 po hns hpi
  have hpon : po = none := by rw [hpo]; exact hnone
  rw [hpon] at hpi
  exact procItem_none_cases d en.sIdx en.label en.fullLen en.nextSec en.item en.rest
    s1 s2 hpi

/-- Claim C5, counterexample: a late-section item at 00:10 (at or before
the 00:30 cutoff, so by the claim it must be retained and emitted) gets
no programme: it is the sole item of the late section and the
`len == 1 or last` skip drops it. -/
theorem bbc_late_cutoff_counterexample :
    bbcDay 0 (stdPage bbcE bbcM bbcA bbcV bbcLoneLate) =
      .ok [⟨"E", "de", "ie", 360, 480⟩, ⟨"M", "dm", "im", 480, 720⟩,
           ⟨"A", "da", "ia", 720, 1080⟩, ⟨"V", "dv", "iv", 1080, 1450⟩] ∧
    ((10 : Nat) ≤ 30) ∧
    (∀ p ∈ [(⟨"E", "de", "ie", 360, 480⟩ : BbcProg), ⟨"M", "dm", "im", 480, 720⟩,
            ⟨"A", "da", "ia", 720, 1080⟩, ⟨"V", "dv", "iv", 1080, 1450⟩],
      p.title ≠ "LONELATE") :=
  ⟨by decide, by decide, by decide⟩

/-- Claim C5, witness for the amended characterization at the concrete
two-item late page. -/
theorem bbc_drop_characterization_witness :
    bbcDay 0 (stdPage bbcE bbcM bbcA bbcV bbcL) =
      .ok [⟨"E", "de", "ie", 360, 480⟩, ⟨"M", "dm", "im", 480, 720⟩,
           ⟨"A", "da", "ia", 720, 1080⟩, ⟨"V", "dv", "iv", 1080, 1450⟩,
           ⟨"L1", "d1", "i1", 1450, 1460⟩] ∧
    ([⟨"E", "de", "ie", 360, 480⟩, ⟨"M", "dm", "im", 480, 720⟩,
      ⟨"A", "da", "ia", 720, 1080⟩, ⟨"V", "dv", "iv", 1080, 1450⟩,
      ⟨"L1", "d1", "i1", 1450, 1460⟩] =
        (flatEntries (stdPage bbcE bbcM bbcA bbcV bbcL)).filterMap (emitAt 0) ∧
     ∀ en ∈ flatEntries (stdPage bbcE bbcM bbcA bbcV bbcL),
       (emitAt 0 en = none ↔
         (en.label = "early" ∧ 420 ≤ (en.item.airTime : Nat)) ∨
         (en.label = "late" ∧ 30 < (en.item.airTime : Nat)) ∨
         (en.sIdx = 4 ∧ (en.fullLen = 1 ∨ en.rest = [])))) :=
  ⟨by decide, bbc_drop_characterization 0 bbcE bbcM bbcA bbcV bbcL _ (by decide)⟩
